import Mathlib

/-!
Shallow embedding of the run/spinup orchestration engine and the
finite-difference derivative scheduler of `simulation/model/eval.py`
(class `Model`), together with the point-query conversion of
`_get_load_trajectory_function_for_points` and the public entry points
`f_points` / `df_points`.

Modelling conventions:

* All stateful code is embedded as explicit state passing over a `DB`
  state: the on-disk database (the spinup run chain of the parameter
  set under consideration, the partial-derivative run chains keyed by
  `(parameter_index, sign)`, the parameter index database, the stored
  parameter file) plus an append-only event log recording run-directory
  creations, external-job launches and external-job waits.
* The external batch system is an oracle `JobOracle`: given the start
  arguments of a job it yields the `(last_year, last_tolerance)` the
  finished job reports.  Trajectory extraction/interpolation is an
  oracle `TrajOracle` from (tracer input dir, model parameters, tracer
  index) to the extracted value; trajectory values are modelled as one
  rational per tracer (every entry of the numpy value array behaves
  identically and independently, so one representative entry is kept).
* Machine floats are modelled as `ℚ`; simulated years as `ℤ` (the code
  computes `years - last_years`, which may be negative).
* Constants imported from `simulation.model.constants`
  (`MODEL_SPINUP_MAX_YEARS`, `METOS_TRACER_DIM`,
  `MODEL_START_FROM_CLOSEST_PARAMETER_SET`,
  `MODEL_INTERPOLATOR_NUMBER_OF_LINEAR_INTERPOLATOR`, ...) and the
  per-model configuration (bounds, typical values, derivative options)
  are parameters of the embedding, carried in `ModelConfig` / `Geo`.
* Python exceptions are `Except VErr`; an exception leaves the state
  as it was at the raise point (state is threaded through errors).
* `closest_parameter_set_dir(parameters, no_spinup_okay=False)`
  (eval.py line 373) subscripts the bound method
  `self.spinup_dir_with_index` with `[i]`, which raises `TypeError`
  ('method' object is not subscriptable) whenever the closest-indices
  list is nonempty, and with an empty list `os.path.join(None, ...)`
  at line 518 raises `TypeError` as well.  The seed-from-closest
  branch of `matching_run_dir` is therefore embedded as the error
  `VErr.typeErrorClosest`.
-/

namespace Sim

/-- Identifier of a chain of run directories inside one parameter set
directory: the spinup chain, a partial-derivative chain
(directory `partial_derivative_{pi}_{sign}` under the derivative
directory), or a temporary trajectory directory. -/
inductive ChainId where
  | main : ChainId
  | deriv (pi : ℕ) (sign : ℤ) : ChainId
  | traj (n : ℕ) : ChainId
  deriving DecidableEq, Repr

/-- A run directory: a chain plus the zero-based run index
(`run_{idx}`). -/
structure RunDirRef where
  chain : ChainId
  idx : ℕ
  deriving DecidableEq, Repr

/-- One run of a chain: the metadata the finished external job reports
(`job.last_year`, `job.last_tolerance`) and the recorded tracer input
directory (`job.tracer_input_dir`). -/
structure Run where
  lastYear : ℤ
  lastTolerance : ℚ
  tracerInput : Option RunDirRef
  deriving DecidableEq, Repr

end Sim

namespace Sim

/-- Spinup target options dictionary `{years, tolerance, combination}`.
The combination is a string, as in the source, so that the
unknown-combination error branch is representable. -/
structure SpinupOptions where
  years : ℤ
  tolerance : ℚ
  combination : String
  deriving DecidableEq, Repr

/-- The Python exceptions raised by the embedded code. -/
inductive VErr where
  | combinationUnknown (s : String) : VErr
  | runDirUnbound : VErr
  | typeErrorClosest : VErr
  | badTotalConcentrationFactor : VErr
  | parametersLength (expected got : ℕ) : VErr
  | belowLowerBound : VErr
  | aboveUpperBound : VErr
  | pointsLen (n : ℕ) : VErr
  | maskLen (maskLen paramsLen : ℕ) : VErr
  | accuracyOrderUnsupported (a : ℕ) : VErr
  | noneNotSubscriptable : VErr
  deriving DecidableEq, Repr

/-- The job-setup kind a launch uses (`spinup`, `derivative`,
`trajectory`). -/
inductive JobKind where
  | spinup : JobKind
  | derivative : JobKind
  | trajectory : JobKind
  deriving DecidableEq, Repr

/-- Arguments of one `start_run` call (= one `Metos3D_Job.write_job_file`
plus `job.start()`). -/
structure StartArgs where
  kind : JobKind
  modelParameters : List ℚ
  outputDir : RunDirRef
  years : ℤ
  tolerance : ℚ
  totalConcentrationFactor : ℚ
  writeTrajectory : Bool
  tracerInputDir : Option RunDirRef
  waitUntilFinished : Bool
  deriving DecidableEq, Repr

/-- Observable filesystem/batch-system effects, recorded in order. -/
inductive Event where
  | runDirCreated (d : RunDirRef) : Event
  | jobStarted (a : StartArgs) : Event
  | waited (d : RunDirRef) : Event
  deriving DecidableEq, Repr

/-- Model configuration: per-model constants of
`simulation.model.constants` and the option dictionaries resolved in
`Model.__init__`. -/
structure ModelConfig where
  factorIncluded : Bool
  lowerBound : List ℚ
  upperBound : List ℚ
  typicalValues : List ℚ
  maxSpinupYears : ℤ
  tracerDim : ℕ
  startFromClosest : Bool
  derivYears : ℤ
  derivStepSize : ℚ
  derivAccuracyOrder : ℕ
  spinupOpts : SpinupOptions

/-- The database state for one parameter set, plus the parameter index
database and the event log. -/
structure DB where
  /-- content of the stored parameter file of this parameter set
  (the database entry: model parameters with the trailing total
  concentration factor) -/
  parameters : List ℚ
  /-- the spinup run chain; an entry is `none` when the run directory
  exists but holds no readable job file -/
  mainChain : List (Option Run)
  /-- partial-derivative run chains, keyed by
  `(parameter_index, sign h)` -/
  derivChains : ℕ × ℤ → List (Option Run)
  /-- entries of the parameter index database -/
  paramDb : List (List ℚ)
  /-- counter for fresh temporary trajectory directories -/
  trajCounter : ℕ
  /-- append-only event log -/
  log : List Event

/-- Result of a stateful computation: the value or the raised
exception, together with the state at return/raise time. -/
abbrev MRes (α : Type) := Except VErr α × DB

/-- Append an event to the log. -/
def DB.addLog (σ : DB) (e : Event) : DB := { σ with log := σ.log ++ [e] }

/-- The runs of a chain. Trajectory directories are temporary and hold
no chain. -/
def DB.chainOf (σ : DB) : ChainId → List (Option Run)
  | .main => σ.mainChain
  | .deriv pi s => σ.derivChains (pi, s)
  | .traj _ => []

/-- The run recorded at a run directory, if its job file is readable. -/
def getRun (σ : DB) (rd : RunDirRef) : Option Run :=
  ((σ.chainOf rd.chain).getD rd.idx none)

/-- Years contributed by one run directory (0 for an unreadable one;
in the source such a read raises, but every call site only reads
directories holding a job file). -/
def runYearsD : Option Run → ℤ
  | some r => r.lastYear
  | none => 0

/-- `get_total_years`: the recursive sum over the run and all its
predecessors in its chain (`previous_run_dir` walks the index down). -/
def getTotalYears (σ : DB) : Option RunDirRef → ℤ
  | some rd => (((σ.chainOf rd.chain).take (rd.idx + 1)).map runYearsD).sum
  | none => 0

/-- `get_real_tolerance`: the last run's own reported tolerance. -/
def getRealTolerance (σ : DB) (rd : RunDirRef) : ℚ :=
  match getRun σ rd with
  | some r => r.lastTolerance
  | none => 0

/-- `previous_run_dir`. -/
def previousRunDir (rd : RunDirRef) : Option RunDirRef :=
  if rd.idx = 0 then none else some ⟨rd.chain, rd.idx - 1⟩

/-- `last_run_dir` on the spinup chain: the highest-numbered run
directory, or `None` when there is none. -/
def lastRunDirOfMain (σ : DB) : Option RunDirRef :=
  if σ.mainChain.length = 0 then none
  else some ⟨.main, σ.mainChain.length - 1⟩

/-- `last_run_dir` on a partial-derivative chain, with the `OSError`
of a force load on a cleared run directory caught to `None` (eval.py
lines 886-889). -/
def derivLastRunDir (pi : ℕ) (s : ℤ) (ch : List (Option Run)) :
    Option RunDirRef :=
  match ch.getLastD none with
  | some _ => some ⟨.deriv pi s, ch.length - 1⟩
  | none => none

end Sim

namespace Sim

/-- `metos3d_model_parameters_dict(...)['model_parameters']`. -/
def metosModelParameters (cfg : ModelConfig) (parameters : List ℚ) : List ℚ :=
  if cfg.factorIncluded then parameters.dropLast else parameters

/-- `metos3d_model_parameters_dict(...)['total_concentration_factor']`. -/
def totalConcentrationFactorOf (cfg : ModelConfig) (parameters : List ℚ) : ℚ :=
  if cfg.factorIncluded then parameters.getLastD 0 else 1

/-- `Model.check_parameters` (eval.py lines 270-295): total
concentration factor sign check, model-parameter length check, and
componentwise bound checks. -/
def checkParameters (cfg : ModelConfig) (parameters : List ℚ) :
    Except VErr Unit :=
  let mp := metosModelParameters cfg parameters
  if cfg.factorIncluded ∧ totalConcentrationFactorOf cfg parameters < 0 then
    .error .badTotalConcentrationFactor
  else if mp.length ≠ cfg.lowerBound.length then
    .error (.parametersLength cfg.lowerBound.length mp.length)
  else if (mp.zip cfg.lowerBound).any (fun p => p.1 < p.2) then
    .error .belowLowerBound
  else if (mp.zip cfg.upperBound).any (fun p => p.1 > p.2) then
    .error .aboveUpperBound
  else .ok ()

/-- `Model.database_parameter_entry`: check the parameters, then
append a trailing factor 1 when the factor is not included in the
parameters (the database entry always carries the factor). -/
def databaseParameterEntry (cfg : ModelConfig) (parameters : List ℚ) :
    Except VErr (List ℚ) :=
  match checkParameters cfg parameters with
  | .error e => .error e
  | .ok _ => .ok (if cfg.factorIncluded then parameters else parameters ++ [1])

/-- `Model.parameter_set_dir(parameters, create=True)`: resolve the
parameter index database entry, adding it when absent.  The
index-database matching tolerance machinery is external
(`util.index_database`); it is modelled as exact-entry membership. -/
def parameterSetDirTouch (cfg : ModelConfig) (parameters : List ℚ) (σ : DB) :
    MRes Unit :=
  match databaseParameterEntry cfg parameters with
  | .error e => (.error e, σ)
  | .ok entry =>
    (.ok (), if entry ∈ σ.paramDb then σ
             else { σ with paramDb := σ.paramDb ++ [entry] })

/-- `Model.is_run_matching_options` (eval.py lines 593-622).  Returns
`(is_matching, warning_issued)`; the warning flag records the
`warnings.warn` call at line 607. -/
def isRunMatchingOptions (cfg : ModelConfig) (σ : DB) (rd : Option RunDirRef)
    (opts : SpinupOptions) : Except VErr (Bool × Bool) :=
  match rd with
  | none => .ok (false, false)
  | some r =>
    let runYears := getTotalYears σ (some r)
    let runTol := getRealTolerance σ r
    if opts.combination = "and" then
      let m : Bool := (decide (runYears ≥ opts.years)
                        && decide (runTol ≤ opts.tolerance))
                      || decide (runYears ≥ cfg.maxSpinupYears)
      .ok (m, m && decide (runTol > opts.tolerance))
    else if opts.combination = "or" then
      .ok (decide (runYears ≥ opts.years) || decide (runTol ≤ opts.tolerance),
           false)
    else .error (.combinationUnknown opts.combination)

/-- External batch system oracle: the `(last_year, last_tolerance)` a
launched job reports once finished. -/
abbrev JobOracle := StartArgs → ℤ × ℚ

/-- `Model.start_run`: write the job file and launch (logged), then
wait when `wait_until_finished` (logged).  The resulting run record is
determined by the job oracle. -/
def startRunEffect (oracle : JobOracle) (a : StartArgs) (σ : DB) : Run × DB :=
  let σ1 := σ.addLog (.jobStarted a)
  let r : Run := { lastYear := (oracle a).1, lastTolerance := (oracle a).2,
                   tracerInput := a.tracerInputDir }
  let σ2 := if a.waitUntilFinished then σ1.addLog (.waited a.outputDir) else σ1
  (r, σ2)

/-- `wait_until_run_job_finished(last_run_dir)` on the spinup chain
when a last run exists (eval.py lines 522-523). -/
def waitLastRun (σ : DB) : DB :=
  match lastRunDirOfMain σ with
  | some d => σ.addLog (.waited d)
  | none => σ

/-- The `combination == 'or'` new-run block of `matching_run_dir`
(eval.py lines 530-549): allocate the next run directory, derive the
model-only parameters and the total concentration factor from the
stored parameter file, compute the remaining years against the years
already accumulated, and launch the job synchronously with the
previous last run as tracer input. -/
def orCreate (cfg : ModelConfig) (oracle : JobOracle) (years : ℤ) (tol : ℚ)
    (σ : DB) : MRes (Option RunDirRef) :=
  let lrd := lastRunDirOfMain σ
  let newDir : RunDirRef := ⟨.main, σ.mainChain.length⟩
  let σ1 := σ.addLog (.runDirCreated newDir)
  let tcf : ℚ := match lrd with
    | none => σ.parameters.getLastD 0
    | some _ => 1
  let modelParams := σ.parameters.dropLast
  let lastYears := getTotalYears σ lrd
  let args : StartArgs :=
    { kind := .spinup, modelParameters := modelParams, outputDir := newDir,
      years := years - lastYears, tolerance := tol,
      totalConcentrationFactor := tcf, writeTrajectory := false,
      tracerInputDir := lrd, waitUntilFinished := true }
  let rs := startRunEffect oracle args σ1
  (.ok (some newDir), { rs.2 with mainChain := rs.2.mainChain ++ [some rs.1] })

/-- `matching_run_dir` specialized to a target with combination
`'or'`: the recursive calls of the `'and'` branch have this shape, and
`matchingRunDir_or_eq` below shows this function is exactly the
general function at an `'or'` target. -/
def matchingRunDirOrOnly (cfg : ModelConfig) (oracle : JobOracle) (sfc : Bool)
    (years : ℤ) (tol : ℚ) (σ : DB) : MRes (Option RunDirRef) :=
  match isRunMatchingOptions cfg σ (lastRunDirOfMain σ) ⟨years, tol, "or"⟩ with
  | .error e => (.error e, σ)
  | .ok (true, _) => (.ok (lastRunDirOfMain σ), σ)
  | .ok (false, _) =>
    if lastRunDirOfMain σ = none ∧ sfc = true then (.error .typeErrorClosest, σ)
    else orCreate cfg oracle years tol (waitLastRun σ)

/-- `Model.matching_run_dir` (eval.py lines 489-557), for a call on
the parameter set directory itself.  If the last run of the spinup
chain matches, it is returned with no state change.  Otherwise: the
seed-from-closest branch (which raises `TypeError`, see the header
comment), waiting for the last run's job, and then either the `'or'`
new-run block or, for `'and'`, the two recursive `'or'` sub-calls
(lines 551-553). -/
def matchingRunDir (cfg : ModelConfig) (oracle : JobOracle) (sfc : Bool)
    (opts : SpinupOptions) (σ : DB) : MRes (Option RunDirRef) :=
  match isRunMatchingOptions cfg σ (lastRunDirOfMain σ) opts with
  | .error e => (.error e, σ)
  | .ok (true, _) => (.ok (lastRunDirOfMain σ), σ)
  | .ok (false, _) =>
    if lastRunDirOfMain σ = none ∧ sfc = true then (.error .typeErrorClosest, σ)
    else
      let σ1 := waitLastRun σ
      if opts.combination = "or" then orCreate cfg oracle opts.years opts.tolerance σ1
      else if opts.combination = "and" then
        match matchingRunDirOrOnly cfg oracle sfc opts.years 0 σ1 with
        | (.error e, σ2) => (.error e, σ2)
        | (.ok _, σ2) =>
          matchingRunDirOrOnly cfg oracle sfc cfg.maxSpinupYears opts.tolerance σ2
      else (.error .runDirUnbound, σ1)

/-- The general matching function at an `'or'` target is the
specialized function: this justifies embedding the recursive calls of
the `'and'` branch by `matchingRunDirOrOnly`. -/
theorem matchingRunDir_or_eq (cfg : ModelConfig) (oracle : JobOracle)
    (sfc : Bool) (years : ℤ) (tol : ℚ) (σ : DB) :
    matchingRunDir cfg oracle sfc ⟨years, tol, "or"⟩ σ
      = matchingRunDirOrOnly cfg oracle sfc years tol σ := by
  unfold matchingRunDir matchingRunDirOrOnly
  rfl

end Sim

namespace Sim

/-- Trajectory extraction oracle: the value
`load_trajectory_function(trajectory_output_dir, tracer_index)`
produces for a trajectory started from the given tracer input
directory with the given model parameters. -/
abbrev TrajOracle := Option RunDirRef → List ℚ → ℕ → ℚ

/-- `Model._get_trajectory` (eval.py lines 658-688): start a
trajectory job (1 year, tolerance 0, `write_trajectory`) in a fresh
temporary directory, wait for it, and read one value per tracer. -/
def getTrajectoryEffect (cfg : ModelConfig) (oracle : JobOracle)
    (trajO : TrajOracle) (rd : Option RunDirRef) (modelParams : List ℚ)
    (σ : DB) : List ℚ × DB :=
  let tdir : RunDirRef := ⟨.traj σ.trajCounter, 0⟩
  let args : StartArgs :=
    { kind := .trajectory, modelParameters := modelParams, outputDir := tdir,
      years := 1, tolerance := 0, totalConcentrationFactor := 1,
      writeTrajectory := true, tracerInputDir := rd, waitUntilFinished := true }
  let σ1 := { σ with trajCounter := σ.trajCounter + 1 }
  let rs := startRunEffect oracle args σ1
  ((List.range cfg.tracerDim).map (trajO rd modelParams), rs.2)

/-- `Model._f` (eval.py lines 770-778): resolve the parameter set
directory, obtain a matching spinup run, and extract its trajectory. -/
def fAux (cfg : ModelConfig) (oracle : JobOracle) (trajO : TrajOracle)
    (parameters : List ℚ) (opts : SpinupOptions) (σ : DB) : MRes (List ℚ) :=
  match parameterSetDirTouch cfg parameters σ with
  | (.error e, σ1) => (.error e, σ1)
  | (.ok _, σ1) =>
    match matchingRunDir cfg oracle cfg.startFromClosest opts σ1 with
    | (.error e, σ2) => (.error e, σ2)
    | (.ok mrd, σ2) =>
      let ts := getTrajectoryEffect cfg oracle trajO mrd
        (metosModelParameters cfg parameters) σ2
      (.ok ts.1, ts.2)

/-- Length of the database parameter entry
(`parameters_len`, eval.py line 837). -/
def dbEntryLen (cfg : ModelConfig) (parameters : List ℚ) : ℕ :=
  if cfg.factorIncluded then parameters.length else parameters.length + 1

/-- The perturbation base vector of `_df`: the database parameter
entry with its trailing total concentration factor overwritten by 1
(eval.py lines 835-836). -/
def derivEntry (cfg : ModelConfig) (parameters : List ℚ) : List ℚ :=
  (if cfg.factorIncluded then parameters else parameters ++ [1]).dropLast ++ [1]

/-- `parameters_lower_bound` extended by 0 for the concentration
factor (eval.py line 838). -/
def lowerBoundExt (cfg : ModelConfig) : List ℚ := cfg.lowerBound ++ [0]

/-- `parameters_upper_bound` extended by infinity for the
concentration factor (eval.py line 839); `none` is `float('inf')`. -/
def upperBoundExt (cfg : ModelConfig) : List (Option ℚ) :=
  cfg.upperBound.map some ++ [none]

/-- `parameters_typical_values` extended by 1 (eval.py line 840). -/
def typicalExt (cfg : ModelConfig) : List ℚ := cfg.typicalValues ++ [1]

/-- The per-component finite-difference step computation of `_df`
(eval.py lines 854-878) for one parameter component and one h-factor
index (`hfi = 0` is factor `+1`, `hfi = 1` is factor `-1`):
the nominal step is `typicalVal * stepSize`; the perturbed value
starts from the entry value; a bound violation flips the sign of the
step under accuracy order 1 (re-basing the perturbed value on the
unperturbed parameter value) and clamps the perturbed value to the
violated bound otherwise; the returned step is recomputed as the
perturbed value minus the unperturbed parameter value (line 878).
Returns `(h, perturbed value)`. -/
def perturbStep (accuracyOrder : ℕ) (entryVal paramVal typicalVal lb : ℚ)
    (ub : Option ℚ) (stepSize : ℚ) (hfi : ℕ) : ℚ × ℚ :=
  let hNominal := typicalVal * stepSize
  let h0 : ℚ := (if hfi = 0 then 1 else -1) * hNominal
  let p0 := entryVal + h0
  let violatesLower : Bool := decide (p0 < lb)
  let violatesUpper : Bool := match ub with
    | none => false
    | some u => decide (p0 > u)
  if accuracyOrder = 1 then
    if violatesLower || violatesUpper then
      let p1 := paramVal + -h0
      (p1 - paramVal, p1)
    else (p0 - paramVal, p0)
  else
    let p1 := if violatesLower then lb
              else if violatesUpper then ub.getD 0 else p0
    (p1 - paramVal, p1)

/-- `perturbStep` instantiated with the data `_df` uses for component
`pi`.  Out-of-range defaults are never reached under the mask. -/
def perturbAt (cfg : ModelConfig) (parameters : List ℚ) (pi hfi : ℕ) : ℚ × ℚ :=
  perturbStep cfg.derivAccuracyOrder ((derivEntry cfg parameters).getD pi 0)
    (parameters.getD pi 0) ((typicalExt cfg).getD pi 1)
    ((lowerBoundExt cfg).getD pi 0) ((upperBoundExt cfg).getD pi none)
    cfg.derivStepSize hfi

/-- `parameters_for_derivative[pi, hfi]`: the entry with component
`pi` replaced by the perturbed value. -/
def perturbedEntry (cfg : ModelConfig) (parameters : List ℚ) (pi hfi : ℕ) :
    List ℚ :=
  (derivEntry cfg parameters).set pi (perturbAt cfg parameters pi hfi).2

/-- `int(np.sign(h))`. -/
def signQ (q : ℚ) : ℤ := if 0 < q then 1 else if q < 0 then -1 else 0

/-- Data recorded for one launched/reused partial-derivative run:
its run directory, the realized step `h[pi, hfi]`, and the perturbed
database entry. -/
structure PDRec where
  runDir : RunDirRef
  h : ℚ
  pert : List ℚ
  deriving DecidableEq, Repr

/-- Replace one partial-derivative chain. -/
def DB.setDeriv (σ : DB) (key : ℕ × ℤ) (ch : List (Option Run)) : DB :=
  { σ with derivChains := fun k => if k = key then ch else σ.derivChains k }

/-- The stale-run removal and fresh-launch block of `_df` (eval.py
lines 902-918): clear the stale run directory's contents (the
directory itself is kept, so it stays counted), create the next run
directory, and launch the perturbed job without waiting, seeded from
the base spinup run. -/
def launchNewPD (cfg : ModelConfig) (oracle : JobOracle)
    (srd : Option RunDirRef) (pi : ℕ) (sgn : ℤ) (hVal : ℚ) (pert : List ℚ)
    (clearIdx : Option ℕ) (σ : DB) : PDRec × DB :=
  let key : ℕ × ℤ := (pi, sgn)
  let ch0 := σ.derivChains key
  let ch1 := match clearIdx with
    | some i => ch0.set i none
    | none => ch0
  let σ1 := σ.setDeriv key ch1
  let newDir : RunDirRef := ⟨.deriv pi sgn, ch1.length⟩
  let σ2 := σ1.addLog (.runDirCreated newDir)
  let args : StartArgs :=
    { kind := .derivative, modelParameters := pert.dropLast,
      outputDir := newDir, years := cfg.derivYears, tolerance := 0,
      totalConcentrationFactor := pert.getLastD 0, writeTrajectory := false,
      tracerInputDir := srd, waitUntilFinished := false }
  let rs := startRunEffect oracle args σ2
  (⟨newDir, hVal, pert⟩, (rs.2).setDeriv key (ch1 ++ [some rs.1]))

/-- Body of the launch loop of `_df` for one `(pi, hfi)` pair (eval.py
lines 854-920): compute the perturbation, look up the existing
partial-derivative run and its recorded tracer-input chain, reuse it
when both matching checks succeed, otherwise launch a fresh run.  The
second matching check is only evaluated when the first succeeds
(Python `or` short-circuit; the first check never raises since its
combination is `'or'`). -/
def launchOne (cfg : ModelConfig) (oracle : JobOracle) (parameters : List ℚ)
    (baseOpts : SpinupOptions) (srd : Option RunDirRef) (pi hfi : ℕ)
    (σ : DB) : MRes PDRec :=
  let hp := perturbAt cfg parameters pi hfi
  let pert := perturbedEntry cfg parameters pi hfi
  let sgn := signQ hp.1
  match derivLastRunDir pi sgn (σ.derivChains (pi, sgn)) with
  | none =>
    let r := launchNewPD cfg oracle srd pi sgn hp.1 pert none σ
    (.ok r.1, r.2)
  | some d =>
    match isRunMatchingOptions cfg σ (some d) ⟨cfg.derivYears, 0, "or"⟩ with
    | .error e => (.error e, σ)
    | .ok (m1, _) =>
      if m1 then
        let pdSpinupRunDir : Option RunDirRef :=
          ((getRun σ d).map Run.tracerInput).getD none
        match isRunMatchingOptions cfg σ pdSpinupRunDir baseOpts with
        | .error e => (.error e, σ)
        | .ok (m2, _) =>
          if m2 then (.ok ⟨d, hp.1, pert⟩, σ)
          else
            let r := launchNewPD cfg oracle srd pi sgn hp.1 pert (some d.idx) σ
            (.ok r.1, r.2)
      else
        let r := launchNewPD cfg oracle srd pi sgn hp.1 pert (some d.idx) σ
        (.ok r.1, r.2)

/-- One step of the inner h-factor loop of the launch phase. -/
def launchStep (cfg : ModelConfig) (oracle : JobOracle) (parameters : List ℚ)
    (baseOpts : SpinupOptions) (srd : Option RunDirRef) (pi : ℕ)
    (acc : MRes (List PDRec)) (hfi : ℕ) : MRes (List PDRec) :=
  match acc with
  | (.error e, σ1) => (.error e, σ1)
  | (.ok rs, σ1) =>
    match launchOne cfg oracle parameters baseOpts srd pi hfi σ1 with
    | (.error e, σ2) => (.error e, σ2)
    | (.ok r, σ2) => (.ok (rs ++ [r]), σ2)

/-- The inner h-factor loop of the launch phase for one masked
component. -/
def launchForIndex (cfg : ModelConfig) (oracle : JobOracle)
    (parameters : List ℚ) (baseOpts : SpinupOptions) (srd : Option RunDirRef)
    (hLen : ℕ) (pi : ℕ) (σ : DB) : MRes (List PDRec) :=
  (List.range hLen).foldl (launchStep cfg oracle parameters baseOpts srd pi)
    (.ok [], σ)

/-- One step of the launch phase loop over the parameter indices. -/
def launchIdxStep (cfg : ModelConfig) (oracle : JobOracle)
    (parameters : List ℚ) (baseOpts : SpinupOptions) (srd : Option RunDirRef)
    (hLen : ℕ) (maskE : List Bool) (acc : MRes (List (ℕ × List PDRec)))
    (pi : ℕ) : MRes (List (ℕ × List PDRec)) :=
  match acc with
  | (.error e, σ1) => (.error e, σ1)
  | (.ok l, σ1) =>
    if maskE.getD pi false then
      match launchForIndex cfg oracle parameters baseOpts srd hLen pi σ1 with
      | (.error e, σ2) => (.error e, σ2)
      | (.ok rs, σ2) => (.ok (l ++ [(pi, rs)]), σ2)
    else (.ok l, σ1)

/-- The launch phase of `_df` (eval.py lines 851-920): for every
masked component, launch or reuse one partial-derivative run per
h factor, without waiting on any of them. -/
def launchPhase (cfg : ModelConfig) (oracle : JobOracle) (parameters : List ℚ)
    (baseOpts : SpinupOptions) (srd : Option RunDirRef) (hLen : ℕ)
    (maskE : List Bool) (pLen : ℕ) (σ : DB) : MRes (List (ℕ × List PDRec)) :=
  (List.range pLen).foldl
    (launchIdxStep cfg oracle parameters baseOpts srd hLen maskE) (.ok [], σ)

/-- Total value of the maybe-unallocated accumulator array `df`:
`none` behaves as the zeros allocated on first touch. -/
def g0Of : Option (ℕ → ℕ → ℚ) → (ℕ → ℕ → ℚ)
  | some g => g
  | none => fun _ _ => 0

/-- One accumulation step of the assembly for one h-factor index:
wait on the partial-derivative run, extract its trajectory, and add
the `(-1)^hfi`-signed values at component `pi`. -/
def assembleAccStep (cfg : ModelConfig) (oracle : JobOracle)
    (trajO : TrajOracle) (pi : ℕ) (st : Option (ℕ → ℕ → ℚ) × DB)
    (er : ℕ × PDRec) : Option (ℕ → ℕ → ℚ) × DB :=
  let hfi := er.1
  let r := er.2
  let σ1 := st.2.addLog (.waited r.runDir)
  let ts := getTrajectoryEffect cfg oracle trajO (some r.runDir)
    (r.pert.dropLast) σ1
  (some (fun ti pj =>
    if pj = pi then g0Of st.1 ti pj + (-1 : ℚ) ^ hfi * ts.1.getD ti 0
    else g0Of st.1 ti pj), ts.2)

/-- The assembly step of `_df` for one masked component (eval.py lines
930-951): wait on each partial-derivative run, extract its trajectory,
accumulate `(-1)^hfi`-signed values, then subtract the base and divide
by `h` (order 1) or divide by the sum of the absolute realized steps
(order 2).  The accumulator array `df` is `none` until its zeros are
allocated on the first accumulation (line 941-942). -/
def assembleIndex (cfg : ModelConfig) (oracle : JobOracle) (trajO : TrajOracle)
    (fBase : List ℚ) (pi : ℕ) (recs : List PDRec)
    (st : Option (ℕ → ℕ → ℚ) × DB) : Option (ℕ → ℕ → ℚ) × DB :=
  let st1 := recs.enum.foldl (assembleAccStep cfg oracle trajO pi) st
  match st1.1 with
  | none => st1
  | some g =>
    (some (fun ti pj =>
      if pj = pi then
        if cfg.derivAccuracyOrder = 1 then
          (g ti pj - fBase.getD ti 0) / ((recs.map PDRec.h).headD 0)
        else g ti pj / ((recs.map (fun r => |r.h|)).sum)
      else g ti pj), st1.2)

/-- The assembly phase over all masked components. -/
def assemblePhase (cfg : ModelConfig) (oracle : JobOracle) (trajO : TrajOracle)
    (fBase : List ℚ) (masked : List (ℕ × List PDRec))
    (st : Option (ℕ → ℕ → ℚ) × DB) : Option (ℕ → ℕ → ℚ) × DB :=
  masked.foldl (fun st pr => assembleIndex cfg oracle trajO fBase pr.1 pr.2 st) st

/-- Boolean-array indexing `xs[mask]`. -/
def boolMask {α : Type} (xs : List α) (m : List Bool) : List α :=
  (xs.zip m).filterMap (fun p => if p.2 then some p.1 else none)

/-- The adjacent-run collapse of `_df` (eval.py lines 826-830):
replace the matching run by its predecessor when the predecessor's
year count is exactly the derivative spinup years less. -/
def dfCollapse (cfg : ModelConfig) (σ : DB) (srd0 : Option RunDirRef) :
    Option RunDirRef × ℤ :=
  let sYears0 := getTotalYears σ srd0
  let prd := srd0.bind previousRunDir
  let pYears := getTotalYears σ prd
  if pYears = sYears0 - cfg.derivYears then (prd, pYears) else (srd0, sYears0)

/-- The base-evaluation block of `_df` for accuracy order 1 (eval.py
lines 825-832): collapse the matching run with its predecessor when
the year counts align exactly, then evaluate the unperturbed
trajectory at the collapsed year count continued by the derivative
spinup years under `{tolerance: 0, combination: 'or'}`. -/
def dfBasePhase (cfg : ModelConfig) (oracle : JobOracle) (trajO : TrajOracle)
    (parameters : List ℚ) (srd0 : Option RunDirRef) (σ : DB) :
    MRes (Option RunDirRef × List ℚ) :=
  if cfg.derivAccuracyOrder = 1 then
    let src := dfCollapse cfg σ srd0
    let r := fAux cfg oracle trajO parameters ⟨src.2 + cfg.derivYears, 0, "or"⟩ σ
    match r.1 with
    | .error e => (.error e, r.2)
    | .ok fv => (.ok (src.1, fv), r.2)
  else (.ok (srd0, []), σ)

/-- The partial-derivatives-mask preparation of `_df` (eval.py lines
792-797): default all-true mask, or the supplied mask after the length
validation. -/
def maskPrep (parameters : List ℚ) (maskArg : Option (List Bool)) :
    Except VErr (List Bool) :=
  match maskArg with
  | none => Except.ok (List.replicate parameters.length true)
  | some m => if m.length ≠ parameters.length
              then Except.error (VErr.maskLen m.length parameters.length)
              else Except.ok m

/-- Mask extension (eval.py lines 798-799): when the concentration
factor is not included in the parameters, extend the mask by `False`
for the factor component. -/
def maskExt (cfg : ModelConfig) (mask0 : List Bool) : List Bool :=
  if cfg.factorIncluded then mask0 else mask0 ++ [false]

/-- The h-factor selection of `_df` (eval.py lines 805-810): the
number of h factors, or the unsupported-accuracy-order error. -/
def hFactorsPrep (cfg : ModelConfig) : Except VErr ℕ :=
  if cfg.derivAccuracyOrder = 1 then Except.ok 1
  else if cfg.derivAccuracyOrder = 2 then Except.ok 2
  else Except.error (VErr.accuracyOrderUnsupported cfg.derivAccuracyOrder)

/-- The base spinup target of `_df` (eval.py line 820): the requested
years minus the derivative spinup years. -/
def dfBaseOpts (cfg : ModelConfig) (opts : SpinupOptions) : SpinupOptions :=
  ⟨opts.years - cfg.derivYears, opts.tolerance, opts.combination⟩

/-- `Model._df` (eval.py lines 782-959): mask validation, h-factor
selection, parameter set resolution, base spinup run, launch phase,
assembly phase, and final boolean-mask application. -/
def dfRun (cfg : ModelConfig) (oracle : JobOracle) (trajO : TrajOracle)
    (parameters : List ℚ) (opts : SpinupOptions) (maskArg : Option (List Bool))
    (σ : DB) : MRes (List (List ℚ)) :=
  match maskPrep parameters maskArg with
  | .error e => (.error e, σ)
  | .ok mask0 =>
    let maskE := maskExt cfg mask0
    match hFactorsPrep cfg with
    | .error e => (.error e, σ)
    | .ok hLen =>
      match parameterSetDirTouch cfg parameters σ with
      | (.error e, σ1) => (.error e, σ1)
      | (.ok _, σ1) =>
        let baseOpts := dfBaseOpts cfg opts
        match matchingRunDir cfg oracle cfg.startFromClosest baseOpts σ1 with
        | (.error e, σ2) => (.error e, σ2)
        | (.ok srd0, σ2) =>
          match dfBasePhase cfg oracle trajO parameters srd0 σ2 with
          | (.error e, σ3) => (.error e, σ3)
          | (.ok (srd, fBase), σ3) =>
            let pLen := dbEntryLen cfg parameters
            match launchPhase cfg oracle parameters baseOpts srd hLen maskE pLen σ3 with
            | (.error e, σ4) => (.error e, σ4)
            | (.ok masked, σ4) =>
              let st := assemblePhase cfg oracle trajO fBase masked (none, σ4)
              match st.1 with
              | none =>
                if cfg.tracerDim = 0 then (.ok [], st.2)
                else (.error .noneNotSubscriptable, st.2)
              | some g =>
                (.ok ((List.range cfg.tracerDim).map (fun ti =>
                  boolMask ((List.range pLen).map (g ti)) maskE)), st.2)

end Sim

namespace Sim

/-- A query point / fractional map-index tuple with the four
coordinate columns of the code (`shape[1] == 4`).  Columns 2 and 3 are
the ones clamped by `_get_load_trajectory_function_for_points`. -/
structure P4 where
  c0 : ℚ
  c1 : ℚ
  c2 : ℚ
  c3 : ℚ
  deriving DecidableEq, Repr

/-- Grid/mask geometry collaborator
(`measurements.land_sea_mask.data`, external): the coordinate
conversion, the interpolator count constant, and the extents used for
clamping (`np.where(lsm > 0)[1].min()`, `.max()` for column 2 and
`z_dim` for column 3). -/
structure Geo where
  coordinatesToMapIndices : P4 → P4
  numLinear : ℕ
  lsmMin2 : ℚ
  lsmMax2 : ℚ
  zDim : ℚ

/-- The query-point conversion of
`_get_load_trajectory_function_for_points` for one tracer (eval.py
lines 700-716): convert the points to fractional map indices, then,
when the number of linear interpolators is positive, run the two
lower-clamp passes (column 2 against the minimal defined mask index,
column 3 against 0) followed by the two upper-clamp passes (column 2
against the maximal defined mask index, column 3 against
`z_dim - 1`). -/
def convertTracerPoints (geo : Geo) (pts : List P4) : List P4 :=
  let ipts := pts.map geo.coordinatesToMapIndices
  if 0 < geo.numLinear then
    let a := ipts.map (fun p =>
      if p.c2 < geo.lsmMin2 then { p with c2 := geo.lsmMin2 } else p)
    let b := a.map (fun p => if p.c3 < 0 then { p with c3 := 0 } else p)
    let c := b.map (fun p =>
      if p.c2 > geo.lsmMax2 then { p with c2 := geo.lsmMax2 } else p)
    c.map (fun p =>
      if p.c3 > geo.zDim - 1 then { p with c3 := geo.zDim - 1 } else p)
  else ipts

/-- Interpolation oracle (`load_trajectories_to_map_index_array`
followed by `Model._interpolate`, whose interpolator is an external
collaborator): the per-tracer interpolated value for given converted
interpolation points. -/
abbrev InterpOracle := Option RunDirRef → List ℚ → List P4 → ℚ

/-- The load-trajectory function built by
`_get_load_trajectory_function_for_points`: interpolate the trajectory
at the converted interpolation points of the tracer. -/
def pointsTrajOracle (geo : Geo) (interp : InterpOracle)
    (points : List (List P4)) : TrajOracle :=
  fun rd mp ti => interp rd mp ((points.map (convertTracerPoints geo)).getD ti [])

/-- `Model.f_points` (eval.py lines 977-990): the points-length
validation, the parameter check, then `_f` on the point-evaluation
load function with the configured spinup options. -/
def fPoints (cfg : ModelConfig) (geo : Geo) (oracle : JobOracle)
    (interp : InterpOracle) (parameters : List ℚ) (points : List (List P4))
    (σ : DB) : MRes (List ℚ) :=
  if points.length ≠ 2 then (.error (.pointsLen points.length), σ)
  else match checkParameters cfg parameters with
    | .error e => (.error e, σ)
    | .ok _ =>
      fAux cfg oracle (pointsTrajOracle geo interp points) parameters
        cfg.spinupOpts σ

/-- `Model.df_points` (eval.py lines 1007-1021): the points-length
validation, the parameter check, then `_df` on the point-evaluation
load function. -/
def dfPoints (cfg : ModelConfig) (geo : Geo) (oracle : JobOracle)
    (interp : InterpOracle) (parameters : List ℚ) (points : List (List P4))
    (maskArg : Option (List Bool)) (σ : DB) : MRes (List (List ℚ)) :=
  if points.length ≠ 2 then (.error (.pointsLen points.length), σ)
  else match checkParameters cfg parameters with
    | .error e => (.error e, σ)
    | .ok _ =>
      dfRun cfg oracle (pointsTrajOracle geo interp points) parameters
        cfg.spinupOpts maskArg σ

end Sim

namespace Sim

/-- C1: for a run directory with recorded total years `Y` and reached
tolerance `T`, `is_run_matching_options` under `'or'` returns true iff
`Y ≥ years` or `T ≤ tolerance` (never warning); under `'and'` it
returns true iff `(Y ≥ years and T ≤ tolerance)` or
`Y ≥ MODEL_SPINUP_MAX_YEARS`; and when `T > tolerance`, the `'and'`
result is true with a warning issued exactly when the hard cap is what
satisfied it — no error is raised. -/
theorem c1_is_run_matching_options (cfg : ModelConfig) (σ : DB) (r : RunDirRef)
    (years : ℤ) (tol : ℚ) :
    (isRunMatchingOptions cfg σ (some r) ⟨years, tol, "or"⟩ = .ok (true, false)
      ↔ (getTotalYears σ (some r) ≥ years ∨ getRealTolerance σ r ≤ tol))
    ∧ ((∃ w, isRunMatchingOptions cfg σ (some r) ⟨years, tol, "and"⟩
          = .ok (true, w))
      ↔ ((getTotalYears σ (some r) ≥ years ∧ getRealTolerance σ r ≤ tol)
          ∨ getTotalYears σ (some r) ≥ cfg.maxSpinupYears))
    ∧ (getRealTolerance σ r > tol →
        (isRunMatchingOptions cfg σ (some r) ⟨years, tol, "and"⟩
            = .ok (true, true)
          ↔ getTotalYears σ (some r) ≥ cfg.maxSpinupYears)) := by
  refine ⟨?_, ?_, ?_⟩
  · simp [isRunMatchingOptions]
  · simp only [isRunMatchingOptions]
    norm_num
  · intro ht
    simp only [isRunMatchingOptions]
    norm_num
    constructor
    · intro h
      rcases h.1 with ⟨_, h2⟩ | h3
      · exact absurd h2 (not_le.mpr ht)
      · exact h3
    · intro h
      exact ⟨Or.inr h, ht⟩

end Sim


namespace Sim

/-- A small concrete model configuration used by the witnesses. -/
def sampleCfg : ModelConfig :=
  { factorIncluded := false, lowerBound := [0], upperBound := [10],
    typicalValues := [1], maxSpinupYears := 10000, tracerDim := 2,
    startFromClosest := false, derivYears := 100, derivStepSize := 1/10,
    derivAccuracyOrder := 2, spinupOpts := ⟨10000, 1/100000, "or"⟩ }

/-- A finished run at the year cap with a coarse tolerance. -/
def sampleRun : Run :=
  { lastYear := 10000, lastTolerance := 1/100, tracerInput := none }

/-- A database whose spinup chain holds `sampleRun`. -/
def sampleDB : DB :=
  { parameters := [2, 1], mainChain := [some sampleRun],
    derivChains := fun _ => [], paramDb := [[2, 1]], trajCounter := 0,
    log := [] }

theorem c1_witness :
    isRunMatchingOptions sampleCfg sampleDB (some ⟨.main, 0⟩)
        ⟨10000, 1/1000, "and"⟩ = .ok (true, true) := by
  have h := (c1_is_run_matching_options sampleCfg sampleDB ⟨.main, 0⟩ 10000
    (1/1000)).2.2
    (by norm_num [getRealTolerance, getRun, DB.chainOf, sampleDB, sampleRun])
  exact h.mpr
    (by norm_num [getTotalYears, DB.chainOf, sampleDB, sampleRun, runYearsD,
      sampleCfg])

end Sim

namespace Sim

/-- C5: for a masked component with nominal step
`h = typical * step_size` (signed by the h factor), a bound-violating
perturbed value gets the step sign flipped and the perturbed value
rebased on the unperturbed parameter component under accuracy order 1,
gets clamped to the violated bound under accuracy order 2, and in all
cases the returned step equals the actually applied delta: perturbed
value minus unperturbed parameter value. -/
theorem c5_perturbation_bound_handling (accuracyOrder : ℕ)
    (entryVal paramVal typicalVal lb stepSize : ℚ) (ub : Option ℚ) (hfi : ℕ) :
    ((perturbStep accuracyOrder entryVal paramVal typicalVal lb ub stepSize hfi).1
        = (perturbStep accuracyOrder entryVal paramVal typicalVal lb ub stepSize hfi).2
          - paramVal)
    ∧ (accuracyOrder = 1 →
        (entryVal + (if hfi = 0 then 1 else -1) * (typicalVal * stepSize) < lb
          ∨ (∃ u, ub = some u
              ∧ entryVal + (if hfi = 0 then 1 else -1) * (typicalVal * stepSize) > u)) →
        (perturbStep accuracyOrder entryVal paramVal typicalVal lb ub stepSize hfi).2
          = paramVal + -((if hfi = 0 then 1 else -1) * (typicalVal * stepSize)))
    ∧ (accuracyOrder = 2 →
        entryVal + (if hfi = 0 then 1 else -1) * (typicalVal * stepSize) < lb →
        (perturbStep accuracyOrder entryVal paramVal typicalVal lb ub stepSize hfi).2
          = lb)
    ∧ (accuracyOrder = 2 → ∀ u, ub = some u →
        ¬(entryVal + (if hfi = 0 then 1 else -1) * (typicalVal * stepSize) < lb) →
        entryVal + (if hfi = 0 then 1 else -1) * (typicalVal * stepSize) > u →
        (perturbStep accuracyOrder entryVal paramVal typicalVal lb ub stepSize hfi).2
          = u) := by
  refine ⟨?_, ?_, ?_, ?_⟩
  · cases ub <;> (unfold perturbStep; dsimp only; split_ifs <;> rfl)
  · intro hacc hviol
    subst hacc
    unfold perturbStep
    rw [if_pos rfl]
    generalize hgen :
      (if hfi = 0 then (1:ℚ) else -1) * (typicalVal * stepSize) = h0 at hviol ⊢
    cases ub with
    | none =>
      rcases hviol with h | ⟨u, hu, _⟩
      · rw [if_pos (by simp [h])]
      · cases hu
    | some u0 =>
      rcases hviol with h | ⟨u, hu, h⟩
      · rw [if_pos (by simp [h])]
      · cases hu
        rw [if_pos (by simp [h])]
  · intro hacc h
    subst hacc
    unfold perturbStep
    rw [if_neg (by norm_num)]
    generalize hgen :
      (if hfi = 0 then (1:ℚ) else -1) * (typicalVal * stepSize) = h0 at h ⊢
    rw [if_pos (by simp [h])]
  · intro hacc u hu hnl h
    subst hacc
    subst hu
    unfold perturbStep
    rw [if_neg (by norm_num)]
    generalize hgen :
      (if hfi = 0 then (1:ℚ) else -1) * (typicalVal * stepSize) = h0 at hnl h ⊢
    rw [if_neg (by simp [hnl]), if_pos (by simp [h])]
    rfl

theorem c5_witness :
    (perturbStep 1 1 1 1 0 (some (3/2)) 1 0).2 = 0
    ∧ (perturbStep 2 1 1 1 0 (some (3/2)) 1 0).2 = 3/2
    ∧ (perturbStep 2 1 1 1 0 (some (3/2)) 1 0).1
        = (perturbStep 2 1 1 1 0 (some (3/2)) 1 0).2 - 1 := by
  refine ⟨?_, ?_, (c5_perturbation_bound_handling 2 1 1 1 0 1 (some (3/2)) 0).1⟩
  · have h := (c5_perturbation_bound_handling 1 1 1 1 0 1 (some (3/2)) 0).2.1 rfl
      (Or.inr ⟨3/2, rfl, by norm_num⟩)
    rw [h]
    norm_num
  · exact (c5_perturbation_bound_handling 2 1 1 1 0 1 (some (3/2)) 0).2.2.2 rfl
      (3/2) rfl (by norm_num) (by norm_num)

end Sim

namespace Sim

/-- Sequential lower-then-upper clamping equals `min (max x m) M`. -/
theorem clamp_if_eq (x m M : ℚ) :
    (if (if x < m then m else x) > M then M else (if x < m then m else x))
      = min (max x m) M := by
  rcases lt_or_le x m with h | h
  · rw [if_pos h, max_eq_right h.le]
    rcases lt_or_le M m with h2 | h2
    · rw [if_pos h2, min_eq_right h2.le]
    · rw [if_neg (not_lt.mpr h2), min_eq_left h2]
  · rw [if_neg (not_lt.mpr h), max_eq_left h]
    rcases lt_or_le M x with h2 | h2
    · rw [if_pos h2, min_eq_right h2.le]
    · rw [if_neg (not_lt.mpr h2), min_eq_left h2]

/-- The four clamping passes of the point conversion, on one point. -/
theorem convert_point_steps (geo : Geo) (c : P4) :
    ((fun p : P4 => if p.c3 > geo.zDim - 1 then { p with c3 := geo.zDim - 1 } else p)
      ((fun p : P4 => if p.c2 > geo.lsmMax2 then { p with c2 := geo.lsmMax2 } else p)
        ((fun p : P4 => if p.c3 < 0 then { p with c3 := 0 } else p)
          ((fun p : P4 => if p.c2 < geo.lsmMin2 then { p with c2 := geo.lsmMin2 } else p)
            c))))
      = { c0 := c.c0, c1 := c.c1,
          c2 := min (max c.c2 geo.lsmMin2) geo.lsmMax2,
          c3 := min (max c.c3 0) (geo.zDim - 1) } := by
  obtain ⟨c0, c1, c2, c3⟩ := c
  rw [← clamp_if_eq c2 geo.lsmMin2 geo.lsmMax2, ← clamp_if_eq c3 0 (geo.zDim - 1)]
  dsimp only
  rcases lt_or_le c2 geo.lsmMin2 with h1 | h1
  · rcases lt_or_le c3 0 with h2 | h2
    · simp only [if_pos h1, if_pos h2]
      split_ifs <;> rfl
    · simp only [if_pos h1, if_neg (not_lt.mpr h2)]
      split_ifs <;> rfl
  · rcases lt_or_le c3 0 with h2 | h2
    · simp only [if_neg (not_lt.mpr h1), if_pos h2]
      split_ifs <;> rfl
    · simp only [if_neg (not_lt.mpr h1), if_neg (not_lt.mpr h2)]
      split_ifs <;> rfl

/-- C8: the point-evaluation path first converts every query point to
fractional map-index coordinates via the mask geometry, and then, when
the configured number of linear interpolators is positive, clamps its
column-2 and column-3 index coordinates into the valid index ranges
(the minimal/maximal defined mask indices, respectively 0 to
`z_dim - 1`). -/
theorem c8_point_conversion_clamps (geo : Geo) (pts : List P4) (k : ℕ)
    (hn : 0 < geo.numLinear) :
    (convertTracerPoints geo pts).get? k
      = (pts.get? k).map (fun p =>
          { c0 := (geo.coordinatesToMapIndices p).c0,
            c1 := (geo.coordinatesToMapIndices p).c1,
            c2 := min (max (geo.coordinatesToMapIndices p).c2 geo.lsmMin2)
                    geo.lsmMax2,
            c3 := min (max (geo.coordinatesToMapIndices p).c3 0)
                    (geo.zDim - 1) }) := by
  unfold convertTracerPoints
  rw [if_pos hn]
  simp only [List.get?_map]
  cases pts.get? k with
  | none => rfl
  | some p =>
    simp only [Option.map_some']
    exact congrArg some (convert_point_steps geo (geo.coordinatesToMapIndices p))

theorem c8_witness :
    (convertTracerPoints
        { coordinatesToMapIndices := fun p => ⟨p.c0, p.c1, 2 * p.c2, p.c3 - 4⟩,
          numLinear := 1, lsmMin2 := 0, lsmMax2 := 3, zDim := 8 }
        [⟨5, 6, 7, 1⟩]).get? 0
      = some ⟨5, 6, 3, 0⟩ := by
  have h := c8_point_conversion_clamps
    { coordinatesToMapIndices := fun p => ⟨p.c0, p.c1, 2 * p.c2, p.c3 - 4⟩,
      numLinear := 1, lsmMin2 := 0, lsmMax2 := 3, zDim := 8 }
    [⟨5, 6, 7, 1⟩] 0 (by norm_num)
  rw [h]
  norm_num

end Sim

namespace Sim

/-- C9: `f_points` and `df_points` raise a `ValueError` naming the
offending length whenever the points argument is not a sequence of
exactly 2 point arrays, before checking the parameters (the error is
raised for arbitrary, even invalid, parameter vectors) and before any
model value computation or state change. -/
theorem c9_points_length_validation (cfg : ModelConfig) (geo : Geo)
    (oracle : JobOracle) (interp : InterpOracle) (parameters : List ℚ)
    (points : List (List P4)) (maskArg : Option (List Bool)) (σ : DB)
    (h : points.length ≠ 2) :
    fPoints cfg geo oracle interp parameters points σ
        = (.error (.pointsLen points.length), σ)
    ∧ dfPoints cfg geo oracle interp parameters points maskArg σ
        = (.error (.pointsLen points.length), σ) := by
  constructor
  · unfold fPoints
    rw [if_pos h]
  · unfold dfPoints
    rw [if_pos h]

theorem c9_witness :
    fPoints sampleCfg
        { coordinatesToMapIndices := id, numLinear := 0, lsmMin2 := 0,
          lsmMax2 := 0, zDim := 1 }
        (fun _ => (0, 0)) (fun _ _ _ => 0) [50] [[], [], []] sampleDB
        = (.error (.pointsLen 3), sampleDB)
    ∧ dfPoints sampleCfg
        { coordinatesToMapIndices := id, numLinear := 0, lsmMin2 := 0,
          lsmMax2 := 0, zDim := 1 }
        (fun _ => (0, 0)) (fun _ _ _ => 0) [50] [[], [], []] none sampleDB
        = (.error (.pointsLen 3), sampleDB) :=
  c9_points_length_validation sampleCfg
    { coordinatesToMapIndices := id, numLinear := 0, lsmMin2 := 0,
      lsmMax2 := 0, zDim := 1 }
    (fun _ => (0, 0)) (fun _ _ _ => 0) [50] [[], [], []] none sampleDB
    (by norm_num)

/-- C6: `_df` raises a `ValueError` whenever a supplied
partial-derivatives mask has a length different from the parameter
vector length, and whenever the configured accuracy order is neither 1
nor 2 (with any well-formed mask argument); in both cases the error is
raised before any run-directory creation, job launch, or
database/filesystem modification: the state is returned unchanged. -/
theorem c6_df_validation_errors (cfg : ModelConfig) (oracle : JobOracle)
    (trajO : TrajOracle) (parameters : List ℚ) (opts : SpinupOptions) (σ : DB) :
    (∀ m : List Bool, m.length ≠ parameters.length →
      dfRun cfg oracle trajO parameters opts (some m) σ
        = (.error (.maskLen m.length parameters.length), σ))
    ∧ (cfg.derivAccuracyOrder ≠ 1 → cfg.derivAccuracyOrder ≠ 2 →
       ∀ maskArg : Option (List Bool),
        (maskArg = none ∨ ∃ m, maskArg = some m ∧ m.length = parameters.length) →
        dfRun cfg oracle trajO parameters opts maskArg σ
          = (.error (.accuracyOrderUnsupported cfg.derivAccuracyOrder), σ)) := by
  constructor
  · intro m hm
    unfold dfRun maskPrep
    dsimp only
    rw [if_pos hm]
  · intro h1 h2 maskArg hmk
    rcases hmk with rfl | ⟨m, rfl, hm⟩
    · unfold dfRun maskPrep hFactorsPrep
      dsimp only
      rw [if_neg h1, if_neg h2]
    · unfold dfRun maskPrep hFactorsPrep
      dsimp only
      rw [if_neg (by simp [hm]), if_neg h1, if_neg h2]

theorem c6_witness :
    dfRun sampleCfg (fun _ => (0, 0)) (fun _ _ _ => 0) [2] sampleCfg.spinupOpts
        (some [true, false]) sampleDB
        = (.error (.maskLen 2 1), sampleDB)
    ∧ dfRun { sampleCfg with derivAccuracyOrder := 4 } (fun _ => (0, 0))
        (fun _ _ _ => 0) [2] sampleCfg.spinupOpts none sampleDB
        = (.error (.accuracyOrderUnsupported 4), sampleDB) :=
  ⟨(c6_df_validation_errors sampleCfg (fun _ => (0, 0)) (fun _ _ _ => 0) [2]
      sampleCfg.spinupOpts sampleDB).1 [true, false] (by norm_num),
   (c6_df_validation_errors { sampleCfg with derivAccuracyOrder := 4 }
      (fun _ => (0, 0)) (fun _ _ _ => 0) [2] sampleCfg.spinupOpts sampleDB).2
      (by norm_num [sampleCfg]) (by norm_num [sampleCfg]) none (Or.inl rfl)⟩

end Sim

namespace Sim

/-- C2: if the last run of the spinup chain already satisfies the
matching predicate, `matching_run_dir` returns that run directory with
the state unchanged — no run-directory creation and no job launch
(the log is untouched); consequently, a second call with the same
target on a state whose last run satisfies the predicate (as after a
first satisfying call) performs zero additional launches. -/
theorem c2_matching_run_dir_idempotent (cfg : ModelConfig) (oracle : JobOracle)
    (sfc : Bool) (opts : SpinupOptions) (σ : DB) :
    (∀ w, isRunMatchingOptions cfg σ (lastRunDirOfMain σ) opts = .ok (true, w) →
      matchingRunDir cfg oracle sfc opts σ = (.ok (lastRunDirOfMain σ), σ))
    ∧ (∀ r σ1 w,
        matchingRunDir cfg oracle sfc opts σ = (.ok r, σ1) →
        isRunMatchingOptions cfg σ1 (lastRunDirOfMain σ1) opts = .ok (true, w) →
        matchingRunDir cfg oracle sfc opts σ1
          = (.ok (lastRunDirOfMain σ1), σ1)) := by
  have base : ∀ σ0 : DB, ∀ w,
      isRunMatchingOptions cfg σ0 (lastRunDirOfMain σ0) opts = .ok (true, w) →
      matchingRunDir cfg oracle sfc opts σ0 = (.ok (lastRunDirOfMain σ0), σ0) := by
    intro σ0 w h
    unfold matchingRunDir
    rw [h]
  exact ⟨base σ, fun r σ1 w _ h => base σ1 w h⟩

theorem c2_witness :
    matchingRunDir sampleCfg (fun _ => (0, 0)) false ⟨5000, 0, "or"⟩ sampleDB
      = (.ok (some ⟨.main, 0⟩), sampleDB) := by
  have h := (c2_matching_run_dir_idempotent sampleCfg (fun _ => (0, 0)) false
    ⟨5000, 0, "or"⟩ sampleDB).1 false
    (by norm_num [isRunMatchingOptions, lastRunDirOfMain, sampleDB,
        getTotalYears, getRealTolerance, getRun, DB.chainOf, sampleRun,
        runYearsD]
        <;> exact fun hc => absurd hc (by decide))
  simpa [lastRunDirOfMain, sampleDB] using h

/-- C3: an `'and'` target whose last run does not already match is
resolved as exactly two sequential recursive calls with `'or'`
sub-targets — first `{years, tolerance: 0}`, then
`{MODEL_SPINUP_MAX_YEARS, tolerance}` on the state the first call
produced — and the run directory of the second call is returned.
(The intervening effect is the wait on the last run's job). -/
theorem c3_and_resolves_as_two_or_subcalls (cfg : ModelConfig)
    (oracle : JobOracle) (sfc : Bool) (years : ℤ) (tol : ℚ) (σ : DB) (w : Bool)
    (hnm : isRunMatchingOptions cfg σ (lastRunDirOfMain σ) ⟨years, tol, "and"⟩
      = .ok (false, w))
    (hns : ¬(lastRunDirOfMain σ = none ∧ sfc = true)) :
    matchingRunDir cfg oracle sfc ⟨years, tol, "and"⟩ σ
      = (match matchingRunDir cfg oracle sfc ⟨years, 0, "or"⟩ (waitLastRun σ) with
         | (.error e, σ2) => (.error e, σ2)
         | (.ok _, σ2) =>
           matchingRunDir cfg oracle sfc ⟨cfg.maxSpinupYears, tol, "or"⟩ σ2) := by
  simp only [matchingRunDir_or_eq]
  unfold matchingRunDir
  rw [hnm, if_neg hns, if_neg (by decide : ¬("and" : String) = "or"),
    if_pos rfl]

theorem c3_witness :
    matchingRunDir { sampleCfg with maxSpinupYears := 50000 } (fun _ => (0, 0))
        false ⟨20000, 0, "and"⟩ sampleDB
      = (match matchingRunDir { sampleCfg with maxSpinupYears := 50000 }
            (fun _ => (0, 0)) false ⟨20000, 0, "or"⟩ (waitLastRun sampleDB) with
         | (.error e, σ2) => (.error e, σ2)
         | (.ok _, σ2) =>
           matchingRunDir { sampleCfg with maxSpinupYears := 50000 }
             (fun _ => (0, 0)) false
             ⟨({ sampleCfg with maxSpinupYears := 50000 } : ModelConfig).maxSpinupYears,
              0, "or"⟩ σ2) :=
  c3_and_resolves_as_two_or_subcalls { sampleCfg with maxSpinupYears := 50000 }
    (fun _ => (0, 0)) false 20000 0 sampleDB false
    (by norm_num [isRunMatchingOptions, lastRunDirOfMain, sampleDB,
      getTotalYears, getRealTolerance, getRun, DB.chainOf, sampleRun, runYearsD,
      sampleCfg])
    (by simp [lastRunDirOfMain, sampleDB])

end Sim

namespace Sim

theorem waitLastRun_parameters (σ : DB) :
    (waitLastRun σ).parameters = σ.parameters := by
  unfold waitLastRun
  cases lastRunDirOfMain σ <;> rfl

theorem waitLastRun_mainChain (σ : DB) :
    (waitLastRun σ).mainChain = σ.mainChain := by
  unfold waitLastRun
  cases lastRunDirOfMain σ <;> rfl

theorem waitLastRun_chainOf (σ : DB) (c : ChainId) :
    (waitLastRun σ).chainOf c = σ.chainOf c := by
  unfold waitLastRun
  cases lastRunDirOfMain σ <;> cases c <;> rfl

theorem lastRunDirOfMain_waitLastRun (σ : DB) :
    lastRunDirOfMain (waitLastRun σ) = lastRunDirOfMain σ := by
  unfold lastRunDirOfMain
  rw [waitLastRun_mainChain]

theorem getTotalYears_waitLastRun (σ : DB) (rd : Option RunDirRef) :
    getTotalYears (waitLastRun σ) rd = getTotalYears σ rd := by
  cases rd <;> simp [getTotalYears, waitLastRun_chainOf]

/-- The start arguments of the job the `'or'` new-run block launches
on state `σ`: the remaining years against the accumulated years of
the last run, the stored model-only parameters, the stored trailing
concentration factor only when no previous run exists, and the last
run directory as tracer input. -/
def orCreateArgs (σ : DB) (years : ℤ) (tol : ℚ) : StartArgs :=
  { kind := .spinup,
    modelParameters := σ.parameters.dropLast,
    outputDir := ⟨.main, σ.mainChain.length⟩,
    years := years - getTotalYears σ (lastRunDirOfMain σ),
    tolerance := tol,
    totalConcentrationFactor :=
      if lastRunDirOfMain σ = none then σ.parameters.getLastD 0 else 1,
    writeTrajectory := false,
    tracerInputDir := lastRunDirOfMain σ,
    waitUntilFinished := true }

theorem orCreateArgs_waitLastRun (σ : DB) (years : ℤ) (tol : ℚ) :
    orCreateArgs (waitLastRun σ) years tol = orCreateArgs σ years tol := by
  unfold orCreateArgs
  rw [waitLastRun_parameters, waitLastRun_mainChain, lastRunDirOfMain_waitLastRun,
    getTotalYears_waitLastRun]

/-- Explicit form of the `'or'` new-run block. -/
theorem orCreate_spec (cfg : ModelConfig) (oracle : JobOracle) (years : ℤ)
    (tol : ℚ) (σ : DB) :
    orCreate cfg oracle years tol σ
      = (.ok (some ⟨.main, σ.mainChain.length⟩),
         { σ with
             mainChain := σ.mainChain ++ [some
               ⟨(oracle (orCreateArgs σ years tol)).1,
                (oracle (orCreateArgs σ years tol)).2,
                lastRunDirOfMain σ⟩],
             log := σ.log
               ++ [.runDirCreated ⟨.main, σ.mainChain.length⟩,
                   .jobStarted (orCreateArgs σ years tol),
                   .waited ⟨.main, σ.mainChain.length⟩] }) := by
  unfold orCreate startRunEffect orCreateArgs DB.addLog
  cases hl : lastRunDirOfMain σ <;> simp [hl]

/-- C4: when `matching_run_dir` creates a new run under `'or'`, the
launched job requests exactly the target years minus the years already
accumulated at the last run, takes its tracer input from the last run
directory (`none` for an empty chain; the seed-from-closest branch is
excluded because it raises, see the header comment), passes the
trailing concentration factor of the stored parameter file only when
no previous run exists (1 otherwise), and uses the stored model-only
parameters. -/
theorem c4_or_branch_new_run (cfg : ModelConfig) (oracle : JobOracle)
    (sfc : Bool) (years : ℤ) (tol : ℚ) (σ : DB) (w : Bool)
    (hnm : isRunMatchingOptions cfg σ (lastRunDirOfMain σ) ⟨years, tol, "or"⟩
      = .ok (false, w))
    (hns : ¬(lastRunDirOfMain σ = none ∧ sfc = true)) :
    matchingRunDir cfg oracle sfc ⟨years, tol, "or"⟩ σ
      = (.ok (some ⟨.main, σ.mainChain.length⟩),
         { waitLastRun σ with
             mainChain := σ.mainChain ++ [some
               ⟨(oracle (orCreateArgs σ years tol)).1,
                (oracle (orCreateArgs σ years tol)).2,
                lastRunDirOfMain σ⟩],
             log := (waitLastRun σ).log
               ++ [.runDirCreated ⟨.main, σ.mainChain.length⟩,
                   .jobStarted (orCreateArgs σ years tol),
                   .waited ⟨.main, σ.mainChain.length⟩] }) := by
  rw [matchingRunDir_or_eq]
  unfold matchingRunDirOrOnly
  rw [hnm, if_neg hns, orCreate_spec, waitLastRun_mainChain,
    lastRunDirOfMain_waitLastRun, orCreateArgs_waitLastRun]

end Sim

namespace Sim

theorem c4_witness :
    matchingRunDir sampleCfg (fun _ => (10000, 0)) false ⟨20000, 0, "or"⟩
        sampleDB
      = (.ok (some ⟨.main, sampleDB.mainChain.length⟩),
         { waitLastRun sampleDB with
             mainChain := sampleDB.mainChain ++ [some
               ⟨((fun (_ : StartArgs) => ((10000 : ℤ), (0 : ℚ)))
                   (orCreateArgs sampleDB 20000 0)).1,
                ((fun (_ : StartArgs) => ((10000 : ℤ), (0 : ℚ)))
                   (orCreateArgs sampleDB 20000 0)).2,
                lastRunDirOfMain sampleDB⟩],
             log := (waitLastRun sampleDB).log
               ++ [.runDirCreated ⟨.main, sampleDB.mainChain.length⟩,
                   .jobStarted (orCreateArgs sampleDB 20000 0),
                   .waited ⟨.main, sampleDB.mainChain.length⟩] }) :=
  c4_or_branch_new_run sampleCfg (fun _ => (10000, 0)) false 20000 0 sampleDB
    false
    (by norm_num [isRunMatchingOptions, lastRunDirOfMain, sampleDB,
        getTotalYears, getRealTolerance, getRun, DB.chainOf, sampleRun,
        runYearsD]
        <;> exact fun hc => absurd hc (by decide))
    (by simp [lastRunDirOfMain, sampleDB])

end Sim

namespace Sim

/-- Chain a logged event refers to. -/
def eventChain : Event → ChainId
  | .runDirCreated d => d.chain
  | .jobStarted a => a.outputDir.chain
  | .waited d => d.chain

/-- The event touches no partial-derivative chain. -/
def notDerivEvent (e : Event) : Prop :=
  ∀ pi s, eventChain e ≠ ChainId.deriv pi s

/-- The event is a launch of a partial-derivative job. -/
def isDerivLaunch (e : Event) : Prop :=
  ∃ a pi s, e = .jobStarted a ∧ a.outputDir.chain = ChainId.deriv pi s

/-- The event is a wait on a partial-derivative run directory. -/
def isDerivWait (e : Event) : Prop :=
  ∃ d pi s, e = .waited d ∧ d.chain = ChainId.deriv pi s

/-- The log of `σ2` extends the log of `σ` by events satisfying `P`. -/
def LogExt (P : Event → Prop) (σ σ2 : DB) : Prop :=
  ∃ Δ, σ2.log = σ.log ++ Δ ∧ ∀ e ∈ Δ, P e

theorem LogExt.of_eq {P : Event → Prop} {σ σ2 : DB} (h : σ2.log = σ.log) :
    LogExt P σ σ2 := ⟨[], by simp [h], by simp⟩

theorem LogExt.refl (P : Event → Prop) (σ : DB) : LogExt P σ σ :=
  LogExt.of_eq rfl

theorem LogExt.trans {P : Event → Prop} {σ1 σ2 σ3 : DB}
    (h1 : LogExt P σ1 σ2) (h2 : LogExt P σ2 σ3) : LogExt P σ1 σ3 := by
  obtain ⟨d1, e1, p1⟩ := h1
  obtain ⟨d2, e2, p2⟩ := h2
  refine ⟨d1 ++ d2, by rw [e2, e1, List.append_assoc], ?_⟩
  intro e he
  rcases List.mem_append.mp he with h | h
  exacts [p1 e h, p2 e h]

theorem LogExt.mono {P Q : Event → Prop} {σ1 σ2 : DB}
    (h : LogExt P σ1 σ2) (hpq : ∀ e, P e → Q e) : LogExt Q σ1 σ2 := by
  obtain ⟨d, hd, hp⟩ := h
  exact ⟨d, hd, fun e he => hpq e (hp e he)⟩

theorem LogExt.conj {P Q : Event → Prop} {σ1 σ2 : DB}
    (hp : LogExt P σ1 σ2) (hq : LogExt Q σ1 σ2) :
    LogExt (fun e => P e ∧ Q e) σ1 σ2 := by
  obtain ⟨d1, e1, p1⟩ := hp
  obtain ⟨d2, e2, p2⟩ := hq
  have hd : d1 = d2 := List.append_cancel_left (e1 ▸ e2)
  subst hd
  exact ⟨d1, e1, fun e he => ⟨p1 e he, p2 e he⟩⟩

theorem LogExt.single {P : Event → Prop} (σ : DB) (e : Event) (he : P e) :
    LogExt P σ (σ.addLog e) := ⟨[e], rfl, by simpa⟩

/-- Generic log-extension through a left fold whose accumulator
carries the state. -/
theorem foldl_logext {α β : Type} (P : Event → Prop) (proj : β → DB)
    (step : β → α → β)
    (hstep : ∀ acc x, LogExt P (proj acc) (proj (step acc x))) :
    ∀ (l : List α) (acc : β), LogExt P (proj acc) (proj (l.foldl step acc)) := by
  intro l
  induction l with
  | nil => intro acc; exact LogExt.refl P _
  | cons x xs ih =>
    intro acc
    exact LogExt.trans (hstep acc x) (ih (step acc x))

theorem parameterSetDirTouch_log (cfg : ModelConfig) (parameters : List ℚ)
    (σ : DB) : (parameterSetDirTouch cfg parameters σ).2.log = σ.log := by
  unfold parameterSetDirTouch
  split
  · rfl
  · dsimp only
    split <;> rfl

theorem startRunEffect_logext (P : Event → Prop) (oracle : JobOracle)
    (a : StartArgs) (σ : DB) (hstart : P (.jobStarted a))
    (hwait : P (.waited a.outputDir)) :
    LogExt P σ (startRunEffect oracle a σ).2 := by
  unfold startRunEffect
  dsimp only
  split_ifs
  · exact LogExt.trans (LogExt.single σ _ hstart) (LogExt.single _ _ hwait)
  · exact LogExt.single σ _ hstart

/-- The event is about a temporary trajectory directory. -/
def trajEvent (e : Event) : Prop := ∃ n, eventChain e = ChainId.traj n

theorem getTrajectoryEffect_logext (cfg : ModelConfig) (oracle : JobOracle)
    (trajO : TrajOracle) (rd : Option RunDirRef) (mp : List ℚ) (σ : DB) :
    LogExt trajEvent σ (getTrajectoryEffect cfg oracle trajO rd mp σ).2 := by
  unfold getTrajectoryEffect
  dsimp only
  exact LogExt.trans (LogExt.of_eq rfl)
    (startRunEffect_logext trajEvent oracle _ _ ⟨σ.trajCounter, rfl⟩
      ⟨σ.trajCounter, rfl⟩)

theorem getTrajectoryEffect_val (cfg : ModelConfig) (oracle : JobOracle)
    (trajO : TrajOracle) (rd : Option RunDirRef) (mp : List ℚ) (σ : DB) :
    (getTrajectoryEffect cfg oracle trajO rd mp σ).1
      = (List.range cfg.tracerDim).map (trajO rd mp) := rfl

/-- The event is about the spinup chain. -/
def mainEvent (e : Event) : Prop := eventChain e = ChainId.main

theorem waitLastRun_logext (σ : DB) : LogExt mainEvent σ (waitLastRun σ) := by
  unfold waitLastRun lastRunDirOfMain
  split_ifs
  · exact LogExt.refl _ σ
  · exact LogExt.single σ _ rfl

theorem orCreate_logext (cfg : ModelConfig) (oracle : JobOracle) (years : ℤ)
    (tol : ℚ) (σ : DB) :
    LogExt mainEvent σ (orCreate cfg oracle years tol σ).2 := by
  rw [orCreate_spec]
  refine ⟨[.runDirCreated ⟨.main, σ.mainChain.length⟩,
           .jobStarted (orCreateArgs σ years tol),
           .waited ⟨.main, σ.mainChain.length⟩], rfl, ?_⟩
  intro e he
  simp only [List.mem_cons, List.not_mem_nil, or_false] at he
  rcases he with rfl | rfl | rfl <;> rfl

theorem matchingRunDirOrOnly_logext (cfg : ModelConfig) (oracle : JobOracle)
    (sfc : Bool) (years : ℤ) (tol : ℚ) (σ : DB) :
    LogExt mainEvent σ (matchingRunDirOrOnly cfg oracle sfc years tol σ).2 := by
  unfold matchingRunDirOrOnly
  split
  · exact LogExt.refl _ σ
  · exact LogExt.refl _ σ
  · split_ifs
    · exact LogExt.refl _ σ
    · exact LogExt.trans (waitLastRun_logext σ) (orCreate_logext cfg oracle years tol _)

theorem matchingRunDir_logext (cfg : ModelConfig) (oracle : JobOracle)
    (sfc : Bool) (opts : SpinupOptions) (σ : DB) :
    LogExt mainEvent σ (matchingRunDir cfg oracle sfc opts σ).2 := by
  unfold matchingRunDir
  split
  · exact LogExt.refl _ σ
  · exact LogExt.refl _ σ
  · split_ifs
    · exact LogExt.refl _ σ
    · exact LogExt.trans (waitLastRun_logext σ)
        (orCreate_logext cfg oracle opts.years opts.tolerance _)
    · refine LogExt.trans (waitLastRun_logext σ) ?_
      dsimp only
      rcases h2 : matchingRunDirOrOnly cfg oracle sfc opts.years 0 (waitLastRun σ)
        with ⟨res, σ2⟩
      have hl1 : LogExt mainEvent (waitLastRun σ) σ2 := by
        have := matchingRunDirOrOnly_logext cfg oracle sfc opts.years 0 (waitLastRun σ)
        rwa [h2] at this
      cases res with
      | error e => exact hl1
      | ok v =>
        exact LogExt.trans hl1
          (matchingRunDirOrOnly_logext cfg oracle sfc cfg.maxSpinupYears opts.tolerance σ2)
    · exact LogExt.trans (waitLastRun_logext σ) (LogExt.refl _ _)

/-- Events outside the partial-derivative chains. -/
def preEvent (e : Event) : Prop := mainEvent e ∨ trajEvent e

theorem preEvent_notDeriv {e : Event} (h : preEvent e) : notDerivEvent e := by
  intro pi s hc
  rcases h with h | ⟨n, h⟩ <;> rw [h] at hc <;> cases hc

theorem fAux_logext (cfg : ModelConfig) (oracle : JobOracle) (trajO : TrajOracle)
    (parameters : List ℚ) (opts : SpinupOptions) (σ : DB) :
    LogExt preEvent σ (fAux cfg oracle trajO parameters opts σ).2 := by
  unfold fAux
  rcases hpt : parameterSetDirTouch cfg parameters σ with ⟨res1, σ1⟩
  have l1 : LogExt preEvent σ σ1 :=
    LogExt.of_eq (by have := parameterSetDirTouch_log cfg parameters σ; rwa [hpt] at this)
  cases res1 with
  | error e => exact l1
  | ok v =>
    dsimp only
    rcases hmr : matchingRunDir cfg oracle cfg.startFromClosest opts σ1 with ⟨res2, σ2⟩
    have l2 : LogExt preEvent σ1 σ2 := by
      have := (matchingRunDir_logext cfg oracle cfg.startFromClosest opts σ1).mono
        (fun e he => (Or.inl he : preEvent e))
      rwa [hmr] at this
    cases res2 with
    | error e => exact LogExt.trans l1 l2
    | ok mrd =>
      dsimp only
      refine LogExt.trans l1 (LogExt.trans l2 ?_)
      exact (getTrajectoryEffect_logext cfg oracle trajO mrd
        (metosModelParameters cfg parameters) σ2).mono
        (fun e he => (Or.inr he : preEvent e))

theorem dfBasePhase_logext (cfg : ModelConfig) (oracle : JobOracle)
    (trajO : TrajOracle) (parameters : List ℚ) (srd0 : Option RunDirRef)
    (σ : DB) :
    LogExt preEvent σ (dfBasePhase cfg oracle trajO parameters srd0 σ).2 := by
  unfold dfBasePhase
  split_ifs
  · dsimp only
    split
    · exact fAux_logext cfg oracle trajO parameters _ σ
    · exact fAux_logext cfg oracle trajO parameters _ σ
  · exact LogExt.refl _ σ

end Sim

namespace Sim

/-- Event emitted by the launch phase for component `pi`: it touches
only the partial-derivative chains of `pi` and is never a wait. -/
def launchEvt (pi : ℕ) (e : Event) : Prop :=
  (∀ pj s, eventChain e = ChainId.deriv pj s → pj = pi)
  ∧ ∀ d, e ≠ Event.waited d

theorem derivLastRunDir_shape (pi : ℕ) (s : ℤ) (ch : List (Option Run))
    (d : RunDirRef) (h : derivLastRunDir pi s ch = some d) :
    d.chain = ChainId.deriv pi s := by
  unfold derivLastRunDir at h
  split at h
  · cases h
    rfl
  · cases h

theorem launchNewPD_logext (cfg : ModelConfig) (oracle : JobOracle)
    (srd : Option RunDirRef) (pi : ℕ) (sgn : ℤ) (hVal : ℚ) (pert : List ℚ)
    (clearIdx : Option ℕ) (σ : DB) :
    LogExt (launchEvt pi) σ
      (launchNewPD cfg oracle srd pi sgn hVal pert clearIdx σ).2 := by
  have hP1 : ∀ i, launchEvt pi (Event.runDirCreated ⟨ChainId.deriv pi sgn, i⟩) := by
    intro i
    refine ⟨fun pj s h => ?_, fun d h => Event.noConfusion h⟩
    simp only [eventChain, ChainId.deriv.injEq] at h
    exact h.1.symm
  have hP2 : ∀ a : StartArgs, a.outputDir.chain = ChainId.deriv pi sgn →
      launchEvt pi (Event.jobStarted a) := by
    intro a ha
    refine ⟨fun pj s h => ?_, fun d h => Event.noConfusion h⟩
    simp only [eventChain, ha, ChainId.deriv.injEq] at h
    exact h.1.symm
  unfold launchNewPD startRunEffect DB.setDeriv DB.addLog
  cases clearIdx with
  | none =>
    dsimp only
    refine ⟨[Event.runDirCreated
               ⟨ChainId.deriv pi sgn, (σ.derivChains (pi, sgn)).length⟩,
             Event.jobStarted
               { kind := JobKind.derivative, modelParameters := pert.dropLast,
                 outputDir := ⟨ChainId.deriv pi sgn,
                   (σ.derivChains (pi, sgn)).length⟩,
                 years := cfg.derivYears, tolerance := 0,
                 totalConcentrationFactor := pert.getLastD 0,
                 writeTrajectory := false, tracerInputDir := srd,
                 waitUntilFinished := false }], by simp, ?_⟩
    intro e he
    simp only [List.mem_cons, List.not_mem_nil, or_false] at he
    rcases he with rfl | rfl
    · exact hP1 _
    · exact hP2 _ rfl
  | some i =>
    dsimp only
    refine ⟨[Event.runDirCreated
               ⟨ChainId.deriv pi sgn, ((σ.derivChains (pi, sgn)).set i none).length⟩,
             Event.jobStarted
               { kind := JobKind.derivative, modelParameters := pert.dropLast,
                 outputDir := ⟨ChainId.deriv pi sgn,
                   ((σ.derivChains (pi, sgn)).set i none).length⟩,
                 years := cfg.derivYears, tolerance := 0,
                 totalConcentrationFactor := pert.getLastD 0,
                 writeTrajectory := false, tracerInputDir := srd,
                 waitUntilFinished := false }], by simp, ?_⟩
    intro e he
    simp only [List.mem_cons, List.not_mem_nil, or_false] at he
    rcases he with rfl | rfl
    · exact hP1 _
    · exact hP2 _ rfl

theorem launchNewPD_rec (cfg : ModelConfig) (oracle : JobOracle)
    (srd : Option RunDirRef) (pi : ℕ) (sgn : ℤ) (hVal : ℚ) (pert : List ℚ)
    (clearIdx : Option ℕ) (σ : DB) :
    (launchNewPD cfg oracle srd pi sgn hVal pert clearIdx σ).1.h = hVal
    ∧ (launchNewPD cfg oracle srd pi sgn hVal pert clearIdx σ).1.pert = pert
    ∧ (launchNewPD cfg oracle srd pi sgn hVal pert clearIdx σ).1.runDir.chain
        = ChainId.deriv pi sgn := by
  unfold launchNewPD
  cases clearIdx <;> exact ⟨rfl, rfl, rfl⟩

/-- Per-(pi, hfi) behaviour of the launch loop body: the log grows by
launch-only events for `pi`, and the produced record carries the
realized step, the perturbed entry, and a run directory in one of the
partial-derivative chains of `pi`. -/
theorem launchOne_spec (cfg : ModelConfig) (oracle : JobOracle)
    (parameters : List ℚ) (baseOpts : SpinupOptions) (srd : Option RunDirRef)
    (pi hfi : ℕ) (σ : DB) (r : PDRec) (σ2 : DB)
    (h : launchOne cfg oracle parameters baseOpts srd pi hfi σ = (.ok r, σ2)) :
    LogExt (launchEvt pi) σ σ2
    ∧ r.h = (perturbAt cfg parameters pi hfi).1
    ∧ r.pert = perturbedEntry cfg parameters pi hfi
    ∧ ∃ s, r.runDir.chain = ChainId.deriv pi s := by
  unfold launchOne at h
  dsimp only at h
  rcases hd : derivLastRunDir pi (signQ (perturbAt cfg parameters pi hfi).1)
      (σ.derivChains (pi, signQ (perturbAt cfg parameters pi hfi).1))
    with _ | d
  · rw [hd] at h
    dsimp only at h
    have hl := launchNewPD_logext cfg oracle srd pi
      (signQ (perturbAt cfg parameters pi hfi).1)
      (perturbAt cfg parameters pi hfi).1
      (perturbedEntry cfg parameters pi hfi) none σ
    have hr := launchNewPD_rec cfg oracle srd pi
      (signQ (perturbAt cfg parameters pi hfi).1)
      (perturbAt cfg parameters pi hfi).1
      (perturbedEntry cfg parameters pi hfi) none σ
    cases h
    exact ⟨hl, hr.1, hr.2.1, _, hr.2.2⟩
  · rw [hd] at h
    dsimp only at h
    split at h
    · exact absurd h (by simp)
    · split at h
      · split at h
        · exact absurd h (by simp)
        · split at h
          · cases h
            exact ⟨LogExt.refl _ σ, rfl, rfl, _, derivLastRunDir_shape _ _ _ _ hd⟩
          · have hl := launchNewPD_logext cfg oracle srd pi
              (signQ (perturbAt cfg parameters pi hfi).1)
              (perturbAt cfg parameters pi hfi).1
              (perturbedEntry cfg parameters pi hfi) (some d.idx) σ
            have hr := launchNewPD_rec cfg oracle srd pi
              (signQ (perturbAt cfg parameters pi hfi).1)
              (perturbAt cfg parameters pi hfi).1
              (perturbedEntry cfg parameters pi hfi) (some d.idx) σ
            cases h
            exact ⟨hl, hr.1, hr.2.1, _, hr.2.2⟩
      · have hl := launchNewPD_logext cfg oracle srd pi
          (signQ (perturbAt cfg parameters pi hfi).1)
          (perturbAt cfg parameters pi hfi).1
          (perturbedEntry cfg parameters pi hfi) (some d.idx) σ
        have hr := launchNewPD_rec cfg oracle srd pi
          (signQ (perturbAt cfg parameters pi hfi).1)
          (perturbAt cfg parameters pi hfi).1
          (perturbedEntry cfg parameters pi hfi) (some d.idx) σ
        cases h
        exact ⟨hl, hr.1, hr.2.1, _, hr.2.2⟩

end Sim

namespace Sim

/-- Record properties of the partial-derivative run launched or
reused for `(pi, hfi)`. -/
def PDRecOK (cfg : ModelConfig) (parameters : List ℚ) (pi hfi : ℕ)
    (r : PDRec) : Prop :=
  r.h = (perturbAt cfg parameters pi hfi).1
  ∧ r.pert = perturbedEntry cfg parameters pi hfi
  ∧ ∃ s, r.runDir.chain = ChainId.deriv pi s

theorem launchForIndex_one_spec (cfg : ModelConfig) (oracle : JobOracle)
    (parameters : List ℚ) (baseOpts : SpinupOptions) (srd : Option RunDirRef)
    (pi : ℕ) (σ : DB) (rs : List PDRec) (σ2 : DB)
    (h : launchForIndex cfg oracle parameters baseOpts srd 1 pi σ
      = (.ok rs, σ2)) :
    LogExt (launchEvt pi) σ σ2
    ∧ ∃ r0, rs = [r0] ∧ PDRecOK cfg parameters pi 0 r0 := by
  unfold launchForIndex at h
  rw [(by decide : List.range 1 = [0]), List.foldl_cons, List.foldl_nil] at h
  unfold launchStep at h
  dsimp only at h
  rcases h0 : launchOne cfg oracle parameters baseOpts srd pi 0 σ with ⟨res0, σa⟩
  rw [h0] at h
  cases res0 with
  | error e => simp at h
  | ok r0 =>
    dsimp only at h
    have hs := launchOne_spec cfg oracle parameters baseOpts srd pi 0 σ r0 σa h0
    obtain ⟨h1, h2⟩ := Prod.mk.injEq .. ▸ h
    cases h
    exact ⟨hs.1, r0, by simp, hs.2.1, hs.2.2.1, hs.2.2.2⟩

theorem launchForIndex_two_spec (cfg : ModelConfig) (oracle : JobOracle)
    (parameters : List ℚ) (baseOpts : SpinupOptions) (srd : Option RunDirRef)
    (pi : ℕ) (σ : DB) (rs : List PDRec) (σ2 : DB)
    (h : launchForIndex cfg oracle parameters baseOpts srd 2 pi σ
      = (.ok rs, σ2)) :
    LogExt (launchEvt pi) σ σ2
    ∧ ∃ r0 r1, rs = [r0, r1] ∧ PDRecOK cfg parameters pi 0 r0
        ∧ PDRecOK cfg parameters pi 1 r1 := by
  unfold launchForIndex at h
  rw [(by decide : List.range 2 = [0, 1]), List.foldl_cons, List.foldl_cons,
    List.foldl_nil] at h
  unfold launchStep at h
  dsimp only at h
  rcases h0 : launchOne cfg oracle parameters baseOpts srd pi 0 σ with ⟨res0, σa⟩
  rw [h0] at h
  cases res0 with
  | error e => simp at h
  | ok r0 =>
    dsimp only at h
    rcases h1 : launchOne cfg oracle parameters baseOpts srd pi 1 σa
      with ⟨res1, σb⟩
    rw [h1] at h
    cases res1 with
    | error e => simp at h
    | ok r1 =>
      dsimp only at h
      have hs0 := launchOne_spec cfg oracle parameters baseOpts srd pi 0 σ r0 σa h0
      have hs1 := launchOne_spec cfg oracle parameters baseOpts srd pi 1 σa r1 σb h1
      cases h
      exact ⟨LogExt.trans hs0.1 hs1.1, r0, r1, by simp,
        ⟨hs0.2.1, hs0.2.2.1, hs0.2.2.2⟩, ⟨hs1.2.1, hs1.2.2.1, hs1.2.2.2⟩⟩

end Sim

namespace Sim

/-- Event emitted by the whole launch phase: only masked
partial-derivative chains are touched and no wait is performed. -/
def maskedEvt (maskE : List Bool) (e : Event) : Prop :=
  (∀ pj s, eventChain e = ChainId.deriv pj s → maskE.getD pj false = true)
  ∧ ∀ d, e ≠ Event.waited d

/-- The records of one masked component, per h-factor count. -/
def PDGood (cfg : ModelConfig) (parameters : List ℚ) (hLen : ℕ)
    (pr : ℕ × List PDRec) : Prop :=
  (hLen = 1 → ∃ r0, pr.2 = [r0] ∧ PDRecOK cfg parameters pr.1 0 r0)
  ∧ (hLen = 2 → ∃ r0 r1, pr.2 = [r0, r1] ∧ PDRecOK cfg parameters pr.1 0 r0
      ∧ PDRecOK cfg parameters pr.1 1 r1)

theorem launchFold_error (cfg : ModelConfig) (oracle : JobOracle)
    (parameters : List ℚ) (baseOpts : SpinupOptions) (srd : Option RunDirRef)
    (hLen : ℕ) (maskE : List Bool) :
    ∀ (l : List ℕ) (e : VErr) (σa : DB),
      l.foldl (launchIdxStep cfg oracle parameters baseOpts srd hLen maskE)
        (.error e, σa) = (.error e, σa) := by
  intro l
  induction l with
  | nil => intro e σa; rfl
  | cons x xs ih =>
    intro e σa
    rw [List.foldl_cons]
    exact ih e σa

theorem launchPhase_go (cfg : ModelConfig) (oracle : JobOracle)
    (parameters : List ℚ) (baseOpts : SpinupOptions) (srd : Option RunDirRef)
    (hLen : ℕ) (maskE : List Bool) (hh : hLen = 1 ∨ hLen = 2) :
    ∀ (l : List ℕ) (acc : List (ℕ × List PDRec)) (σa : DB)
      (masked : List (ℕ × List PDRec)) (σ4 : DB),
      l.foldl (launchIdxStep cfg oracle parameters baseOpts srd hLen maskE)
        (.ok acc, σa) = (.ok masked, σ4) →
      LogExt (maskedEvt maskE) σa σ4
      ∧ ∃ newl, masked = acc ++ newl
        ∧ newl.map Prod.fst = l.filter (fun pj => maskE.getD pj false)
        ∧ ∀ pr ∈ newl, PDGood cfg parameters hLen pr := by
  intro l
  induction l with
  | nil =>
    intro acc σa masked σ4 h
    rw [List.foldl_nil] at h
    obtain ⟨h1, h2⟩ := Prod.mk.injEq .. ▸ h
    cases h
    exact ⟨LogExt.refl _ _, [], by simp, by simp, by simp⟩
  | cons pj rest ih =>
    intro acc σa masked σ4 h
    rw [List.foldl_cons] at h
    rcases hs : launchIdxStep cfg oracle parameters baseOpts srd hLen maskE
        (.ok acc, σa) pj with ⟨res, σb⟩
    rw [hs] at h
    unfold launchIdxStep at hs
    dsimp only at hs
    rcases hmask : maskE.getD pj false with _ | _
    · rw [hmask] at hs
      simp only [Bool.false_eq_true, if_false] at hs
      injection hs with hs1 hs2
      subst hs1
      subst hs2
      obtain ⟨hl, newl, hm, hfst, hgood⟩ := ih acc σa masked σ4 h
      refine ⟨hl, newl, hm, ?_, hgood⟩
      rw [List.filter_cons, hmask]
      simpa using hfst
    · rw [hmask] at hs
      simp only [if_true] at hs
      rcases hfi2 : launchForIndex cfg oracle parameters baseOpts srd hLen pj σa
        with ⟨resf, σc⟩
      rw [hfi2] at hs
      cases resf with
      | error e =>
        injection hs with hs1 hs2
        subst hs1
        subst hs2
        rw [launchFold_error] at h
        simp at h
      | ok rs =>
        injection hs with hs1 hs2
        subst hs1
        subst hs2
        obtain ⟨hl2, newl, hm, hfst, hgood⟩ := ih (acc ++ [(pj, rs)]) σc masked σ4 h
        have hone : LogExt (launchEvt pj) σa σc ∧ PDGood cfg parameters hLen (pj, rs) := by
          rcases hh with rfl | rfl
          · obtain ⟨hle, r0, hrs, hok⟩ :=
              launchForIndex_one_spec cfg oracle parameters baseOpts srd pj σa rs σc hfi2
            exact ⟨hle, ⟨fun _ => ⟨r0, hrs, hok⟩,
              fun hcon => absurd hcon (by decide)⟩⟩
          · obtain ⟨hle, r0, r1, hrs, hok0, hok1⟩ :=
              launchForIndex_two_spec cfg oracle parameters baseOpts srd pj σa rs σc hfi2
            exact ⟨hle, ⟨fun hcon => absurd hcon (by decide),
              fun _ => ⟨r0, r1, hrs, hok0, hok1⟩⟩⟩
        refine ⟨LogExt.trans (hone.1.mono ?_) hl2, (pj, rs) :: newl, by simpa [List.append_assoc] using hm, ?_, ?_⟩
        · intro e he
          exact ⟨fun pk s hc => (he.1 pk s hc) ▸ hmask, he.2⟩
        · rw [List.filter_cons, hmask]
          simpa using hfst
        · intro pr hpr
          rcases List.mem_cons.mp hpr with rfl | hpr
          · exact hone.2
          · exact hgood pr hpr

/-- Launch-phase characterization: the log grows by launch-only
events on masked chains, and the produced list pairs up exactly the
masked parameter indices, in ascending order, with good records. -/
theorem launchPhase_spec (cfg : ModelConfig) (oracle : JobOracle)
    (parameters : List ℚ) (baseOpts : SpinupOptions) (srd : Option RunDirRef)
    (hLen : ℕ) (maskE : List Bool) (pLen : ℕ) (σ : DB)
    (masked : List (ℕ × List PDRec)) (σ4 : DB) (hh : hLen = 1 ∨ hLen = 2)
    (h : launchPhase cfg oracle parameters baseOpts srd hLen maskE pLen σ
      = (.ok masked, σ4)) :
    LogExt (maskedEvt maskE) σ σ4
    ∧ masked.map Prod.fst
        = (List.range pLen).filter (fun pj => maskE.getD pj false)
    ∧ ∀ pr ∈ masked, PDGood cfg parameters hLen pr := by
  unfold launchPhase at h
  obtain ⟨hl, newl, hm, hfst, hgood⟩ :=
    launchPhase_go cfg oracle parameters baseOpts srd hLen maskE hh
      (List.range pLen) [] σ masked σ4 h
  subst hm
  exact ⟨hl, by simpa using hfst, by simpa using hgood⟩

end Sim

namespace Sim

/-- Event emitted by the assembly phase: deriv-chain events only on
masked components, and every launch is a trajectory job. -/
def assembleEvt (maskE : List Bool) (e : Event) : Prop :=
  (∀ pj s, eventChain e = ChainId.deriv pj s → maskE.getD pj false = true)
  ∧ ∀ a : StartArgs, e = Event.jobStarted a →
      ∃ n, a.outputDir.chain = ChainId.traj n

/-- Member-restricted log extension through a left fold. -/
theorem foldl_logext_mem {α β : Type} (P : Event → Prop) (proj : β → DB)
    (step : β → α → β) :
    ∀ (l : List α),
      (∀ acc, ∀ x ∈ l, LogExt P (proj acc) (proj (step acc x))) →
      ∀ acc : β, LogExt P (proj acc) (proj (l.foldl step acc)) := by
  intro l
  induction l with
  | nil => intro _ acc; exact LogExt.refl _ _
  | cons x xs ih =>
    intro hstep acc
    rw [List.foldl_cons]
    exact LogExt.trans (hstep acc x (List.mem_cons_self x xs))
      (ih (fun a y hy => hstep a y (List.mem_cons_of_mem x hy)) (step acc x))

theorem trajEvent_assembleEvt {maskE : List Bool} {e : Event}
    (h : trajEvent e) : assembleEvt maskE e := by
  obtain ⟨n, hn⟩ := h
  constructor
  · intro pj s hc
    rw [hn] at hc
    cases hc
  · intro a ha
    subst ha
    exact ⟨n, hn⟩

theorem assembleAccStep_logext (cfg : ModelConfig) (oracle : JobOracle)
    (trajO : TrajOracle) (pi : ℕ) (maskE : List Bool)
    (hmask : maskE.getD pi false = true) (st : Option (ℕ → ℕ → ℚ) × DB)
    (er : ℕ × PDRec) (hdir : ∃ s, er.2.runDir.chain = ChainId.deriv pi s) :
    LogExt (assembleEvt maskE) st.2
      (assembleAccStep cfg oracle trajO pi st er).2 := by
  unfold assembleAccStep
  dsimp only
  refine LogExt.trans (LogExt.single st.2 (Event.waited er.2.runDir) ?_) ?_
  · obtain ⟨s, hs⟩ := hdir
    constructor
    · intro pj s2 hc
      simp only [eventChain] at hc
      rw [hs] at hc
      cases hc
      exact hmask
    · intro a ha
      exact absurd ha (by simp)
  · exact (getTrajectoryEffect_logext cfg oracle trajO _ _ _).mono
      (fun e he => trajEvent_assembleEvt he)

theorem assembleIndex_logext (cfg : ModelConfig) (oracle : JobOracle)
    (trajO : TrajOracle) (fBase : List ℚ) (pi : ℕ) (recs : List PDRec)
    (maskE : List Bool) (hmask : maskE.getD pi false = true)
    (hdirs : ∀ r ∈ recs, ∃ s, r.runDir.chain = ChainId.deriv pi s)
    (st : Option (ℕ → ℕ → ℚ) × DB) :
    LogExt (assembleEvt maskE) st.2
      (assembleIndex cfg oracle trajO fBase pi recs st).2 := by
  unfold assembleIndex
  dsimp only
  have hfold := foldl_logext_mem (assembleEvt maskE) Prod.snd
    (assembleAccStep cfg oracle trajO pi) recs.enum
    (fun acc er her => assembleAccStep_logext cfg oracle trajO pi maskE hmask
      acc er (hdirs er.2 (by
        have := List.mem_enum_iff_getElem?.mp her
        exact List.getElem?_mem this))) st
  split
  · exact hfold
  · exact hfold

theorem assemblePhase_logext (cfg : ModelConfig) (oracle : JobOracle)
    (trajO : TrajOracle) (fBase : List ℚ) (masked : List (ℕ × List PDRec))
    (maskE : List Bool)
    (hm : ∀ pr ∈ masked, maskE.getD pr.1 false = true
      ∧ ∀ r ∈ pr.2, ∃ s, r.runDir.chain = ChainId.deriv pr.1 s)
    (st : Option (ℕ → ℕ → ℚ) × DB) :
    LogExt (assembleEvt maskE) st.2
      (assemblePhase cfg oracle trajO fBase masked st).2 := by
  unfold assemblePhase
  exact foldl_logext_mem (assembleEvt maskE) Prod.snd _ masked
    (fun acc pr hpr => assembleIndex_logext cfg oracle trajO fBase pr.1 pr.2
      maskE (hm pr hpr).1 (hm pr hpr).2 acc) st

end Sim

namespace Sim

/-- Inversion of a successful `_df` run into its phases. -/
theorem dfRun_ok_decomp (cfg : ModelConfig) (oracle : JobOracle)
    (trajO : TrajOracle) (parameters : List ℚ) (opts : SpinupOptions)
    (maskArg : Option (List Bool)) (σ : DB) (df : List (List ℚ)) (σf : DB)
    (h : dfRun cfg oracle trajO parameters opts maskArg σ = (.ok df, σf)) :
    ∃ mask0 hLen σ1 σ2 σ3 srd0 srd fBase masked σ4,
      maskPrep parameters maskArg = .ok mask0
      ∧ hFactorsPrep cfg = .ok hLen
      ∧ parameterSetDirTouch cfg parameters σ = (.ok (), σ1)
      ∧ matchingRunDir cfg oracle cfg.startFromClosest (dfBaseOpts cfg opts) σ1
          = (.ok srd0, σ2)
      ∧ dfBasePhase cfg oracle trajO parameters srd0 σ2 = (.ok (srd, fBase), σ3)
      ∧ launchPhase cfg oracle parameters (dfBaseOpts cfg opts) srd hLen
          (maskExt cfg mask0) (dbEntryLen cfg parameters) σ3 = (.ok masked, σ4)
      ∧ σf = (assemblePhase cfg oracle trajO fBase masked (none, σ4)).2
      ∧ (((assemblePhase cfg oracle trajO fBase masked (none, σ4)).1 = none
            ∧ cfg.tracerDim = 0 ∧ df = [])
         ∨ (∃ g, (assemblePhase cfg oracle trajO fBase masked (none, σ4)).1
              = some g
            ∧ df = (List.range cfg.tracerDim).map (fun ti =>
                boolMask ((List.range (dbEntryLen cfg parameters)).map (g ti))
                  (maskExt cfg mask0)))) := by
  unfold dfRun at h
  rcases hm : maskPrep parameters maskArg with e | mask0
  · rw [hm] at h
    simp at h
  rw [hm] at h
  dsimp only at h
  rcases hh : hFactorsPrep cfg with e | hLen
  · rw [hh] at h
    simp at h
  rw [hh] at h
  dsimp only at h
  rcases hpt : parameterSetDirTouch cfg parameters σ with ⟨res1, σ1⟩
  rw [hpt] at h
  cases res1 with
  | error e => simp at h
  | ok u =>
    cases u
    dsimp only at h
    rcases hmr : matchingRunDir cfg oracle cfg.startFromClosest
        (dfBaseOpts cfg opts) σ1 with ⟨res2, σ2⟩
    rw [hmr] at h
    cases res2 with
    | error e => simp at h
    | ok srd0 =>
      dsimp only at h
      rcases hbp : dfBasePhase cfg oracle trajO parameters srd0 σ2
        with ⟨res3, σ3⟩
      rw [hbp] at h
      cases res3 with
      | error e => simp at h
      | ok p =>
        obtain ⟨srd, fBase⟩ := p
        dsimp only at h
        rcases hlp : launchPhase cfg oracle parameters (dfBaseOpts cfg opts) srd
            hLen (maskExt cfg mask0) (dbEntryLen cfg parameters) σ3
          with ⟨res4, σ4⟩
        rw [hlp] at h
        cases res4 with
        | error e => simp at h
        | ok masked =>
          dsimp only at h
          refine ⟨mask0, hLen, σ1, σ2, σ3, srd0, srd, fBase, masked, σ4,
            rfl, rfl, rfl, hmr, hbp, hlp, ?_⟩
          rcases hst : (assemblePhase cfg oracle trajO fBase masked
              (none, σ4)).1 with _ | g
          · rw [hst] at h
            by_cases htd : cfg.tracerDim = 0
            · rw [if_pos htd] at h
              injection h with h1 h2
              injection h1 with h1
              exact ⟨h2.symm, Or.inl ⟨rfl, htd, h1.symm⟩⟩
            · rw [if_neg htd] at h
              simp at h
          · rw [hst] at h
            injection h with h1 h2
            injection h1 with h1
            exact ⟨h2.symm, Or.inr ⟨g, rfl, h1.symm⟩⟩

/-- In a log made of a no-derivative-events prefix, a no-waits middle
and a no-derivative-launches suffix, every derivative launch precedes
every derivative wait. -/
theorem derivOrdering_of_segments (d1 d2 d3 : List Event)
    (h1 : ∀ e ∈ d1, notDerivEvent e)
    (h2 : ∀ e ∈ d2, ∀ d, e ≠ Event.waited d)
    (h3 : ∀ e ∈ d3, ∀ a : StartArgs, e = Event.jobStarted a →
        ∃ n, a.outputDir.chain = ChainId.traj n) :
    ∀ i j e1 e2, (d1 ++ d2 ++ d3).get? i = some e1 → isDerivLaunch e1 →
      (d1 ++ d2 ++ d3).get? j = some e2 → isDerivWait e2 → i < j := by
  intro i j e1 e2 hi hL hj hW
  obtain ⟨a, pi, s, ha, hac⟩ := hL
  obtain ⟨d, pj, s2, hd, hdc⟩ := hW
  subst ha
  subst hd
  have hiu : i < (d1 ++ d2).length := by
    by_contra hc
    push_neg at hc
    rw [List.get?_append_right hc] at hi
    have := h3 _ (List.get?_mem hi) a rfl
    obtain ⟨n, hn⟩ := this
    rw [hn] at hac
    cases hac
  have hil : ¬i < d1.length := by
    intro hc
    rw [List.append_assoc, List.get?_append hc] at hi
    have := h1 _ (List.get?_mem hi) pi s
    simp only [eventChain] at this
    exact this hac
  have hju : ¬j < (d1 ++ d2).length := by
    intro hc
    rw [List.get?_append hc] at hj
    rcases List.get?_mem hj with hmem
    rcases List.mem_append.mp hmem with hmem | hmem
    · have := h1 _ hmem pj s2
      simp only [eventChain] at this
      exact this hdc
    · exact h2 _ hmem d rfl
  push_neg at hju
  omega

end Sim

namespace Sim

theorem boolMask_cons_true {α : Type} (x : α) (xs : List α) (m : List Bool) :
    boolMask (x :: xs) (true :: m) = x :: boolMask xs m := by
  simp [boolMask]

theorem boolMask_cons_false {α : Type} (x : α) (xs : List α) (m : List Bool) :
    boolMask (x :: xs) (false :: m) = boolMask xs m := by
  simp [boolMask]

theorem boolMask_length {α : Type} :
    ∀ (xs : List α) (m : List Bool), xs.length = m.length →
      (boolMask xs m).length = m.count true := by
  intro xs
  induction xs with
  | nil =>
    intro m h
    cases m with
    | nil => rfl
    | cons b m => simp at h
  | cons x xs ih =>
    intro m h
    cases m with
    | nil => simp at h
    | cons b m =>
      have h2 : xs.length = m.length := by simpa using h
      cases b with
      | false =>
        rw [boolMask_cons_false, ih m h2, List.count_cons]
        simp
      | true =>
        rw [boolMask_cons_true, List.length_cons, ih m h2, List.count_cons]
        simp

theorem boolMask_get_at {α : Type} :
    ∀ (xs : List α) (m : List Bool) (i : ℕ), i < xs.length →
      m.getD i false = true →
      (boolMask xs m).get? ((m.take i).count true) = xs.get? i := by
  intro xs
  induction xs with
  | nil =>
    intro m i hi
    simp at hi
  | cons x xs ih =>
    intro m i hi hm
    cases m with
    | nil => simp [List.getD] at hm
    | cons b m =>
      cases i with
      | zero =>
        simp only [List.getD_cons_zero] at hm
        subst hm
        rw [boolMask_cons_true]
        simp
      | succ i =>
        simp only [List.getD_cons_succ] at hm
        have hi2 : i < xs.length := by simpa using hi
        cases b with
        | false =>
          rw [boolMask_cons_false, List.take_succ_cons]
          have hc : (false :: m.take i).count true = (m.take i).count true := by
            simp [List.count_cons]
          rw [hc, List.get?_cons_succ]
          exact ih m i hi2 hm
        | true =>
          rw [boolMask_cons_true, List.take_succ_cons]
          have hc : (true :: m.take i).count true
              = (m.take i).count true + 1 := by
            simp [List.count_cons]
          rw [hc, List.get?_cons_succ, List.get?_cons_succ]
          exact ih m i hi2 hm

theorem maskPrep_some (parameters : List ℚ) (mask : List Bool)
    (hlen : mask.length = parameters.length) :
    maskPrep parameters (some mask) = .ok mask := by
  simp [maskPrep, hlen]

theorem maskExt_count (cfg : ModelConfig) (m : List Bool) :
    (maskExt cfg m).count true = m.count true := by
  unfold maskExt
  split
  · rfl
  · simp [List.count_append]

theorem maskExt_length (cfg : ModelConfig) (parameters : List ℚ)
    (m : List Bool) (h : m.length = parameters.length) :
    (maskExt cfg m).length = dbEntryLen cfg parameters := by
  unfold maskExt dbEntryLen
  split
  · simpa using h
  · simp [h]

theorem maskExt_getD_last (cfg : ModelConfig) (m : List Bool)
    (hf : cfg.factorIncluded = false) :
    (maskExt cfg m).getD m.length false = false := by
  unfold maskExt
  rw [hf]
  simp [List.getD_eq_getElem?_getD, List.getElem?_append_right]

theorem hFactorsPrep_cases (cfg : ModelConfig) (hLen : ℕ)
    (h : hFactorsPrep cfg = .ok hLen) :
    (cfg.derivAccuracyOrder = 1 ∧ hLen = 1)
    ∨ (cfg.derivAccuracyOrder = 2 ∧ hLen = 2) := by
  unfold hFactorsPrep at h
  split_ifs at h with h1 h2
  · injection h with h
    exact Or.inl ⟨h1, h.symm⟩
  · injection h with h
    exact Or.inr ⟨h2, h.symm⟩

/-- Events touching a derivative chain of a masked-out component never
occur: composition of the per-phase log extensions of `_df`. -/
theorem dfRun_derivMasked (cfg : ModelConfig) (oracle : JobOracle)
    (trajO : TrajOracle) (parameters : List ℚ) (opts : SpinupOptions)
    (maskArg : Option (List Bool)) (σ : DB) (df : List (List ℚ)) (σf : DB)
    (mask0 : List Bool) (h : dfRun cfg oracle trajO parameters opts maskArg σ
      = (.ok df, σf)) (hm : maskPrep parameters maskArg = .ok mask0) :
    LogExt (fun e => ∀ pj s, eventChain e = ChainId.deriv pj s →
      (maskExt cfg mask0).getD pj false = true) σ σf := by
  obtain ⟨mask0', hLen, σ1, σ2, σ3, srd0, srd, fBase, masked, σ4,
    hm', hh, hpt, hmr, hbp, hlp, hσf, _⟩ :=
    dfRun_ok_decomp cfg oracle trajO parameters opts maskArg σ df σf h
  rw [hm] at hm'
  injection hm' with hm'
  subst hm'
  have hh2 : hLen = 1 ∨ hLen = 2 := by
    rcases hFactorsPrep_cases cfg hLen hh with ⟨_, h1⟩ | ⟨_, h2⟩
    · exact Or.inl h1
    · exact Or.inr h2
  have l1 : LogExt preEvent σ σ1 :=
    LogExt.of_eq (by
      have := parameterSetDirTouch_log cfg parameters σ
      rwa [hpt] at this)
  have l2 : LogExt preEvent σ1 σ2 := by
    have := (matchingRunDir_logext cfg oracle cfg.startFromClosest
      (dfBaseOpts cfg opts) σ1).mono (fun e he => (Or.inl he : preEvent e))
    rwa [hmr] at this
  have l3 : LogExt preEvent σ2 σ3 := by
    have := dfBasePhase_logext cfg oracle trajO parameters srd0 σ2
    rwa [hbp] at this
  obtain ⟨l4, hfst, hgood⟩ := launchPhase_spec cfg oracle parameters
    (dfBaseOpts cfg opts) srd hLen (maskExt cfg mask0)
    (dbEntryLen cfg parameters) σ3 masked σ4 hh2 hlp
  have hmem : ∀ pr ∈ masked, (maskExt cfg mask0).getD pr.1 false = true
      ∧ ∀ r ∈ pr.2, ∃ s, r.runDir.chain = ChainId.deriv pr.1 s := by
    intro pr hpr
    constructor
    · have : pr.1 ∈ masked.map Prod.fst := List.mem_map_of_mem Prod.fst hpr
      rw [hfst] at this
      exact (List.mem_filter.mp this).2
    · intro r hr
      rcases hh2 with h1 | h2
      · obtain ⟨r0, hr0, hok⟩ := (hgood pr hpr).1 h1
        rw [hr0] at hr
        simp only [List.mem_singleton] at hr
        subst hr
        exact hok.2.2
      · obtain ⟨r0, r1, hr01, hok0, hok1⟩ := (hgood pr hpr).2 h2
        rw [hr01] at hr
        simp only [List.mem_cons, List.not_mem_nil, or_false] at hr
        rcases hr with rfl | rfl
        · exact hok0.2.2
        · exact hok1.2.2
  have l5 : LogExt (assembleEvt (maskExt cfg mask0)) σ4
      (assemblePhase cfg oracle trajO fBase masked (none, σ4)).2 :=
    assemblePhase_logext cfg oracle trajO fBase masked (maskExt cfg mask0)
      hmem (none, σ4)
  rw [hσf]
  refine LogExt.trans (LogExt.trans (LogExt.trans (LogExt.trans
    (l1.mono ?_) (l2.mono ?_)) (l3.mono ?_)) (l4.mono ?_)) (l5.mono ?_)
  · intro e he pj s hc
    exact absurd hc (preEvent_notDeriv he pj s)
  · intro e he pj s hc
    exact absurd hc (preEvent_notDeriv he pj s)
  · intro e he pj s hc
    exact absurd hc (preEvent_notDeriv he pj s)
  · exact fun e he => he.1
  · exact fun e he => he.1

end Sim

namespace Sim

/-- C10: for every `_df` call with a mask of length equal to the
parameter vector, each per-tracer result array has exactly as many
leading-axis entries as the mask has `True` components; and when the
total concentration factor is not included in the parameters, the mask
is internally extended by `False` for the factor component, so no
event (run-directory creation, launch or wait) on a derivative chain
of the factor component ever occurs. -/
theorem c10_mask_application (cfg : ModelConfig) (oracle : JobOracle)
    (trajO : TrajOracle) (parameters : List ℚ) (opts : SpinupOptions)
    (mask : List Bool) (σ : DB) (df : List (List ℚ)) (σf : DB)
    (hlen : mask.length = parameters.length)
    (h : dfRun cfg oracle trajO parameters opts (some mask) σ = (.ok df, σf)) :
    df.length = cfg.tracerDim
    ∧ (∀ row ∈ df, row.length = mask.count true)
    ∧ (cfg.factorIncluded = false →
        ∀ e ∈ σf.log.drop σ.log.length, ∀ pj s,
          eventChain e = ChainId.deriv pj s → pj ≠ parameters.length) := by
  have hev : cfg.factorIncluded = false →
      ∀ e ∈ σf.log.drop σ.log.length, ∀ pj s,
        eventChain e = ChainId.deriv pj s → pj ≠ parameters.length := by
    intro hf e he pj s hc hcon
    obtain ⟨Δ, hΔ, hP⟩ := dfRun_derivMasked cfg oracle trajO parameters opts
      (some mask) σ df σf mask h (maskPrep_some parameters mask hlen)
    rw [hΔ, List.drop_left] at he
    have hgd := hP e he pj s hc
    rw [hcon, ← hlen, maskExt_getD_last cfg mask hf] at hgd
    exact Bool.noConfusion hgd
  obtain ⟨mask0, hLen, σ1, σ2, σ3, srd0, srd, fBase, masked, σ4,
    hm', hh, hpt, hmr, hbp, hlp, hσf, hdf⟩ :=
    dfRun_ok_decomp cfg oracle trajO parameters opts (some mask) σ df σf h
  have hm0 : mask0 = mask := by
    rw [maskPrep_some parameters mask hlen] at hm'
    injection hm' with hm'
    exact hm'.symm
  subst hm0
  rcases hdf with ⟨hg, htd, hdfe⟩ | ⟨g, hg, hdfe⟩
  · subst hdfe
    exact ⟨by simp [htd], by simp, hev⟩
  · subst hdfe
    refine ⟨by simp, ?_, hev⟩
    intro row hrow
    obtain ⟨ti, hti, hrw⟩ := List.mem_map.mp hrow
    rw [← hrw, boolMask_length _ _
      (by rw [maskExt_length cfg parameters mask0 hlen]; simp)]
    exact maskExt_count cfg mask0

/-- Concrete configuration for witness evaluations of the `_df`
claims: one model parameter, factor not included, accuracy order 2. -/
def witCfg : ModelConfig :=
  { factorIncluded := false, lowerBound := [0], upperBound := [10],
    typicalValues := [1], maxSpinupYears := 10000, tracerDim := 1,
    startFromClosest := false, derivYears := 100, derivStepSize := 1/10,
    derivAccuracyOrder := 2, spinupOpts := ⟨1000, 0, "or"⟩ }

/-- Witness batch system: every job finishes after its requested years
with a tiny reached tolerance. -/
def witOracle : JobOracle := fun a => (a.years, 1/1000000)

/-- Witness trajectory extraction: the first model parameter. -/
def witTrajO : TrajOracle := fun _ mp _ => mp.headD 0

/-- Witness database: a parameter file `[2, 1]` and one finished
spinup run of 1000 years. -/
def witDB : DB :=
  { parameters := [2, 1], mainChain := [some ⟨1000, 0, none⟩],
    derivChains := fun _ => [], paramDb := [[2, 1]], trajCounter := 0,
    log := [] }

theorem c10_witness :
    ([true] : List Bool).length = ([(2:ℚ)]).length
    ∧ (([[(1:ℚ)]] : List (List ℚ)).length = witCfg.tracerDim
       ∧ (∀ row ∈ ([[(1:ℚ)]] : List (List ℚ)),
           row.length = ([true] : List Bool).count true)
       ∧ (witCfg.factorIncluded = false →
           ∀ e ∈ ((dfRun witCfg witOracle witTrajO [2] ⟨1000, 0, "or"⟩
               (some [true]) witDB).2).log.drop witDB.log.length,
             ∀ pj s, eventChain e = ChainId.deriv pj s →
               pj ≠ ([(2:ℚ)]).length)) :=
  ⟨rfl, c10_mask_application witCfg witOracle witTrajO [2] ⟨1000, 0, "or"⟩
    [true] witDB [[1]]
    ((dfRun witCfg witOracle witTrajO [2] ⟨1000, 0, "or"⟩ (some [true])
      witDB).2)
    rfl (by with_unfolding_all rfl)⟩

end Sim

namespace Sim

/-- The trajectory value the assembly reads for run record `r` at
tracer index `ti` (`self._get_trajectory(..., df_run_dir)[ti]`). -/
def trajValAt (cfg : ModelConfig) (trajO : TrajOracle) (r : PDRec)
    (ti : ℕ) : ℚ :=
  ((List.range cfg.tracerDim).map
    (trajO (some r.runDir) (r.pert.dropLast))).getD ti 0

/-- The final `df[:, pi]` entry value produced by the assembly for a
masked component with partial-derivative records `recs` (eval.py lines
944-951). -/
def dfEntryVal (cfg : ModelConfig) (trajO : TrajOracle) (fBase : List ℚ)
    (recs : List PDRec) (ti : ℕ) : ℚ :=
  match recs with
  | [r0] =>
    if cfg.derivAccuracyOrder = 1 then
      (trajValAt cfg trajO r0 ti - fBase.getD ti 0) / r0.h
    else trajValAt cfg trajO r0 ti / |r0.h|
  | [r0, r1] =>
    if cfg.derivAccuracyOrder = 1 then
      (trajValAt cfg trajO r0 ti - trajValAt cfg trajO r1 ti
        - fBase.getD ti 0) / r0.h
    else (trajValAt cfg trajO r0 ti - trajValAt cfg trajO r1 ti)
      / (|r0.h| + |r1.h|)
  | _ => 0

theorem get?_map_range {α : Type} (f : ℕ → α) (n ti : ℕ) (h : ti < n) :
    ((List.range n).map f).get? ti = some (f ti) := by
  rw [List.get?_eq_getElem?, List.getElem?_map, List.getElem?_range h]
  rfl

theorem getD_map_range {α : Type} (f : ℕ → α) (d : α) (n ti : ℕ)
    (h : ti < n) : ((List.range n).map f).getD ti d = f ti := by
  rw [List.getD_eq_getElem?_getD, List.getElem?_map, List.getElem?_range h]
  rfl

theorem trajValAt_lt (cfg : ModelConfig) (trajO : TrajOracle) (r : PDRec)
    (ti : ℕ) (h : ti < cfg.tracerDim) :
    trajValAt cfg trajO r ti
      = trajO (some r.runDir) (r.pert.dropLast) ti :=
  getD_map_range _ 0 _ ti h

theorem assembleIndex_eval_one (cfg : ModelConfig) (oracle : JobOracle)
    (trajO : TrajOracle) (fBase : List ℚ) (pi : ℕ) (r0 : PDRec)
    (g0m : Option (ℕ → ℕ → ℚ)) (σa : DB) :
    ∃ g σb, assembleIndex cfg oracle trajO fBase pi [r0] (g0m, σa)
      = (some g, σb)
    ∧ (∀ ti pj, pj ≠ pi → g ti pj = g0Of g0m ti pj)
    ∧ ∀ ti, g ti pi =
        if cfg.derivAccuracyOrder = 1 then
          (g0Of g0m ti pi + trajValAt cfg trajO r0 ti - fBase.getD ti 0)
            / r0.h
        else (g0Of g0m ti pi + trajValAt cfg trajO r0 ti) / |r0.h| := by
  unfold assembleIndex
  rw [show ([r0].enum) = [(0, r0)] from rfl, List.foldl_cons, List.foldl_nil]
  unfold assembleAccStep
  dsimp only [g0Of]
  refine ⟨_, _, rfl, ?_, ?_⟩
  · intro ti pj hne
    rw [if_neg hne, if_neg hne]
  · intro ti
    by_cases hacc : cfg.derivAccuracyOrder = 1
    · simp only [if_pos rfl, if_pos hacc]
      simp [getTrajectoryEffect, trajValAt]
    · simp only [if_pos rfl, if_neg hacc]
      simp [getTrajectoryEffect, trajValAt]

theorem assembleIndex_eval_two (cfg : ModelConfig) (oracle : JobOracle)
    (trajO : TrajOracle) (fBase : List ℚ) (pi : ℕ) (r0 r1 : PDRec)
    (g0m : Option (ℕ → ℕ → ℚ)) (σa : DB) :
    ∃ g σb, assembleIndex cfg oracle trajO fBase pi [r0, r1] (g0m, σa)
      = (some g, σb)
    ∧ (∀ ti pj, pj ≠ pi → g ti pj = g0Of g0m ti pj)
    ∧ ∀ ti, g ti pi =
        if cfg.derivAccuracyOrder = 1 then
          (g0Of g0m ti pi + trajValAt cfg trajO r0 ti
            - trajValAt cfg trajO r1 ti - fBase.getD ti 0) / r0.h
        else (g0Of g0m ti pi + trajValAt cfg trajO r0 ti
            - trajValAt cfg trajO r1 ti) / (|r0.h| + |r1.h|) := by
  unfold assembleIndex
  rw [show ([r0, r1].enum) = [(0, r0), (1, r1)] from rfl,
    List.foldl_cons, List.foldl_cons, List.foldl_nil]
  unfold assembleAccStep
  dsimp only [g0Of]
  refine ⟨_, _, rfl, ?_, ?_⟩
  · intro ti pj hne
    rw [if_neg hne, if_neg hne, if_neg hne]
  · intro ti
    by_cases hacc : cfg.derivAccuracyOrder = 1
    · simp only [if_pos rfl, if_pos hacc]
      simp only [getTrajectoryEffect, trajValAt]
      simp [sub_eq_add_neg]
    · simp only [if_pos rfl, if_neg hacc]
      simp only [getTrajectoryEffect, trajValAt]
      simp [sub_eq_add_neg]

end Sim

namespace Sim

/-- The record-list shape produced by the launch phase. -/
def shapeOK (pr : ℕ × List PDRec) : Prop :=
  (∃ r0, pr.2 = [r0]) ∨ ∃ r0 r1, pr.2 = [r0, r1]

theorem assemblePhase_preserve (cfg : ModelConfig) (oracle : JobOracle)
    (trajO : TrajOracle) (fBase : List ℚ) :
    ∀ (l : List (ℕ × List PDRec)) (g0 : ℕ → ℕ → ℚ) (σa : DB) (pj : ℕ),
      (∀ pr ∈ l, shapeOK pr) →
      (∀ pr ∈ l, pr.1 ≠ pj) →
      ∃ g, (assemblePhase cfg oracle trajO fBase l (some g0, σa)).1 = some g
        ∧ ∀ ti, g ti pj = g0 ti pj := by
  intro l
  induction l with
  | nil =>
    intro g0 σa pj _ _
    exact ⟨g0, rfl, fun ti => rfl⟩
  | cons pr0 rest ih =>
    intro g0 σa pj hsh hne
    have hstep : assemblePhase cfg oracle trajO fBase (pr0 :: rest)
        (some g0, σa)
        = assemblePhase cfg oracle trajO fBase rest
          (assembleIndex cfg oracle trajO fBase pr0.1 pr0.2 (some g0, σa)) :=
      rfl
    rcases hsh pr0 (List.mem_cons_self pr0 rest) with ⟨r0, hr⟩ | ⟨r0, r1, hr⟩
    · obtain ⟨g1, σb, heq, hpres, _⟩ :=
        assembleIndex_eval_one cfg oracle trajO fBase pr0.1 r0 (some g0) σa
      rw [hstep, hr, heq]
      obtain ⟨g, hg, hval⟩ := ih g1 σb pj
        (fun pr hpr => hsh pr (List.mem_cons_of_mem pr0 hpr))
        (fun pr hpr => hne pr (List.mem_cons_of_mem pr0 hpr))
      refine ⟨g, hg, fun ti => ?_⟩
      rw [hval ti]
      exact hpres ti pj (hne pr0 (List.mem_cons_self pr0 rest)).symm
    · obtain ⟨g1, σb, heq, hpres, _⟩ :=
        assembleIndex_eval_two cfg oracle trajO fBase pr0.1 r0 r1 (some g0) σa
      rw [hstep, hr, heq]
      obtain ⟨g, hg, hval⟩ := ih g1 σb pj
        (fun pr hpr => hsh pr (List.mem_cons_of_mem pr0 hpr))
        (fun pr hpr => hne pr (List.mem_cons_of_mem pr0 hpr))
      refine ⟨g, hg, fun ti => ?_⟩
      rw [hval ti]
      exact hpres ti pj (hne pr0 (List.mem_cons_self pr0 rest)).symm

theorem assemblePhase_eval (cfg : ModelConfig) (oracle : JobOracle)
    (trajO : TrajOracle) (fBase : List ℚ) :
    ∀ (l : List (ℕ × List PDRec)) (g0m : Option (ℕ → ℕ → ℚ)) (σa : DB),
      (∀ pr ∈ l, shapeOK pr) →
      List.Pairwise (fun a b => a.1 ≠ b.1) l →
      (∀ pr ∈ l, ∀ ti, g0Of g0m ti pr.1 = 0) →
      ∀ pr ∈ l, ∃ g,
        (assemblePhase cfg oracle trajO fBase l (g0m, σa)).1 = some g
        ∧ ∀ ti, g ti pr.1 = dfEntryVal cfg trajO fBase pr.2 ti := by
  intro l
  induction l with
  | nil =>
    intro g0m σa _ _ _ pr hpr
    exact absurd hpr (List.not_mem_nil pr)
  | cons pr0 rest ih =>
    intro g0m σa hsh hpw hstart pr hpr
    have hstep : assemblePhase cfg oracle trajO fBase (pr0 :: rest) (g0m, σa)
        = assemblePhase cfg oracle trajO fBase rest
          (assembleIndex cfg oracle trajO fBase pr0.1 pr0.2 (g0m, σa)) :=
      rfl
    have hpw2 := (List.pairwise_cons.mp hpw).1
    have hpwr := (List.pairwise_cons.mp hpw).2
    rcases hsh pr0 (List.mem_cons_self pr0 rest) with ⟨r0, hr⟩ | ⟨r0, r1, hr⟩
    · obtain ⟨g1, σb, heq, hpres, hval0⟩ :=
        assembleIndex_eval_one cfg oracle trajO fBase pr0.1 r0 g0m σa
      rcases List.mem_cons.mp hpr with rfl | hpr2
      · -- the processed component itself
        obtain ⟨g, hg, hgval⟩ := assemblePhase_preserve cfg oracle trajO fBase
          rest g1 σb pr.1
          (fun q hq => hsh q (List.mem_cons_of_mem pr hq))
          (fun q hq => (hpw2 q hq).symm)
        rw [hstep, hr, heq]
        refine ⟨g, hg, fun ti => ?_⟩
        rw [hgval ti, hval0 ti, hstart pr (List.mem_cons_self pr rest) ti]
        unfold dfEntryVal
        split_ifs with hacc
        · rw [zero_add]
        · rw [zero_add]
      · obtain ⟨g, hg, hgval⟩ := ih g1 σb
          (fun q hq => hsh q (List.mem_cons_of_mem pr0 hq)) hpwr
          (fun q hq ti => by
            rw [show (g0Of (some g1) : ℕ → ℕ → ℚ) = g1 from rfl,
              hpres ti q.1 (hpw2 q hq).symm]
            exact hstart q (List.mem_cons_of_mem pr0 hq) ti)
          pr hpr2
        rw [hstep, hr, heq]
        exact ⟨g, hg, hgval⟩
    · obtain ⟨g1, σb, heq, hpres, hval0⟩ :=
        assembleIndex_eval_two cfg oracle trajO fBase pr0.1 r0 r1 g0m σa
      rcases List.mem_cons.mp hpr with rfl | hpr2
      · obtain ⟨g, hg, hgval⟩ := assemblePhase_preserve cfg oracle trajO fBase
          rest g1 σb pr.1
          (fun q hq => hsh q (List.mem_cons_of_mem pr hq))
          (fun q hq => (hpw2 q hq).symm)
        rw [hstep, hr, heq]
        refine ⟨g, hg, fun ti => ?_⟩
        rw [hgval ti, hval0 ti, hstart pr (List.mem_cons_self pr rest) ti]
        unfold dfEntryVal
        split_ifs with hacc
        · rw [zero_add]
        · rw [zero_add]
      · obtain ⟨g, hg, hgval⟩ := ih g1 σb
          (fun q hq => hsh q (List.mem_cons_of_mem pr0 hq)) hpwr
          (fun q hq ti => by
            rw [show (g0Of (some g1) : ℕ → ℕ → ℚ) = g1 from rfl,
              hpres ti q.1 (hpw2 q hq).symm]
            exact hstart q (List.mem_cons_of_mem pr0 hq) ti)
          pr hpr2
        rw [hstep, hr, heq]
        exact ⟨g, hg, hgval⟩

end Sim

namespace Sim

theorem fAux_ok_val (cfg : ModelConfig) (oracle : JobOracle)
    (trajO : TrajOracle) (parameters : List ℚ) (opts : SpinupOptions)
    (σ : DB) (fv : List ℚ) (σ2 : DB)
    (h : fAux cfg oracle trajO parameters opts σ = (.ok fv, σ2)) :
    ∃ mrd, fv = (List.range cfg.tracerDim).map
      (trajO mrd (metosModelParameters cfg parameters)) := by
  unfold fAux at h
  rcases hpt : parameterSetDirTouch cfg parameters σ with ⟨res1, σ1⟩
  rw [hpt] at h
  cases res1 with
  | error e => simp at h
  | ok u =>
    dsimp only at h
    rcases hmr : matchingRunDir cfg oracle cfg.startFromClosest opts σ1
      with ⟨res2, σb⟩
    rw [hmr] at h
    cases res2 with
    | error e => simp at h
    | ok mrd =>
      dsimp only at h
      injection h with h1 h2
      injection h1 with h1
      exact ⟨mrd, h1.symm⟩

theorem dfBasePhase_val (cfg : ModelConfig) (oracle : JobOracle)
    (trajO : TrajOracle) (parameters : List ℚ) (srd0 : Option RunDirRef)
    (σ2 : DB) (srd : Option RunDirRef) (fBase : List ℚ) (σ3 : DB)
    (hacc : cfg.derivAccuracyOrder = 1)
    (h : dfBasePhase cfg oracle trajO parameters srd0 σ2
      = (.ok (srd, fBase), σ3)) :
    ∃ mrd, fBase = (List.range cfg.tracerDim).map
      (trajO mrd (metosModelParameters cfg parameters)) := by
  unfold dfBasePhase at h
  rw [if_pos hacc] at h
  dsimp only at h
  rcases hf : fAux cfg oracle trajO parameters
      ⟨(dfCollapse cfg σ2 srd0).2 + cfg.derivYears, 0, "or"⟩ σ2
    with ⟨res, σ'⟩
  rw [hf] at h
  cases res with
  | error e => simp at h
  | ok fv =>
    dsimp only at h
    injection h with h1 h2
    injection h1 with h1
    obtain ⟨mrd, hval⟩ := fAux_ok_val cfg oracle trajO parameters _ σ2 fv σ' hf
    refine ⟨mrd, ?_⟩
    have hfv : fv = fBase := congrArg Prod.snd h1
    rw [← hfv, hval]

end Sim

namespace Sim

/-- C7: in every successful `_df` run, all partial-derivative launches
precede all partial-derivative waits; and for every masked component
and every tracer quantity the returned entry is
`(perturbed trajectory - base trajectory) / h` under accuracy order 1
and `(forward trajectory - backward trajectory) / (|h_fwd| + |h_bwd|)`
under accuracy order 2, with `h` the realized steps of the source's
perturbation computation. -/
theorem c7_derivative_assembly (cfg : ModelConfig) (oracle : JobOracle)
    (trajO : TrajOracle) (parameters : List ℚ) (opts : SpinupOptions)
    (maskArg : Option (List Bool)) (σ : DB) (df : List (List ℚ)) (σf : DB)
    (h : dfRun cfg oracle trajO parameters opts maskArg σ = (.ok df, σf)) :
    (∀ i j e1 e2, (σf.log.drop σ.log.length).get? i = some e1 →
       isDerivLaunch e1 →
       (σf.log.drop σ.log.length).get? j = some e2 → isDerivWait e2 → i < j)
    ∧ ∀ mask0, maskPrep parameters maskArg = .ok mask0 →
      ∀ pi, pi < dbEntryLen cfg parameters →
        (maskExt cfg mask0).getD pi false = true →
        ∀ ti, ti < cfg.tracerDim →
          ∃ row, df.get? ti = some row
          ∧ ((cfg.derivAccuracyOrder = 1 →
               ∃ r0 mrd, PDRecOK cfg parameters pi 0 r0
               ∧ row.get? (((maskExt cfg mask0).take pi).count true)
                   = some ((trajO (some r0.runDir) (r0.pert.dropLast) ti
                       - trajO mrd (metosModelParameters cfg parameters) ti)
                       / r0.h))
             ∧ (cfg.derivAccuracyOrder = 2 →
               ∃ r0 r1, PDRecOK cfg parameters pi 0 r0
               ∧ PDRecOK cfg parameters pi 1 r1
               ∧ row.get? (((maskExt cfg mask0).take pi).count true)
                   = some ((trajO (some r0.runDir) (r0.pert.dropLast) ti
                       - trajO (some r1.runDir) (r1.pert.dropLast) ti)
                       / (|r0.h| + |r1.h|)))) := by
  obtain ⟨mask0', hLen, σ1, σ2, σ3, srd0, srd, fBase, masked, σ4,
    hm', hh, hpt, hmr, hbp, hlp, hσf, hdf⟩ :=
    dfRun_ok_decomp cfg oracle trajO parameters opts maskArg σ df σf h
  have hhc := hFactorsPrep_cases cfg hLen hh
  have hh2 : hLen = 1 ∨ hLen = 2 := by
    rcases hhc with ⟨_, h1⟩ | ⟨_, h2⟩
    · exact Or.inl h1
    · exact Or.inr h2
  have l1 : LogExt preEvent σ σ1 := LogExt.of_eq (by
    have := parameterSetDirTouch_log cfg parameters σ
    rwa [hpt] at this)
  have l2 : LogExt preEvent σ1 σ2 := by
    have := (matchingRunDir_logext cfg oracle cfg.startFromClosest
      (dfBaseOpts cfg opts) σ1).mono (fun e he => (Or.inl he : preEvent e))
    rwa [hmr] at this
  have l3 : LogExt preEvent σ2 σ3 := by
    have := dfBasePhase_logext cfg oracle trajO parameters srd0 σ2
    rwa [hbp] at this
  obtain ⟨l4, hfst, hgood⟩ := launchPhase_spec cfg oracle parameters
    (dfBaseOpts cfg opts) srd hLen (maskExt cfg mask0')
    (dbEntryLen cfg parameters) σ3 masked σ4 hh2 hlp
  have hmem : ∀ pr ∈ masked, (maskExt cfg mask0').getD pr.1 false = true
      ∧ ∀ r ∈ pr.2, ∃ s, r.runDir.chain = ChainId.deriv pr.1 s := by
    intro pr hpr
    constructor
    · have : pr.1 ∈ masked.map Prod.fst := List.mem_map_of_mem Prod.fst hpr
      rw [hfst] at this
      exact (List.mem_filter.mp this).2
    · intro r hr
      rcases hh2 with h1 | h2
      · obtain ⟨r0, hr0, hok⟩ := (hgood pr hpr).1 h1
        rw [hr0] at hr
        simp only [List.mem_singleton] at hr
        subst hr
        exact hok.2.2
      · obtain ⟨r0, r1, hr01, hok0, hok1⟩ := (hgood pr hpr).2 h2
        rw [hr01] at hr
        simp only [List.mem_cons, List.not_mem_nil, or_false] at hr
        rcases hr with rfl | rfl
        · exact hok0.2.2
        · exact hok1.2.2
  have l5 := assemblePhase_logext cfg oracle trajO fBase masked
    (maskExt cfg mask0') hmem (none, σ4)
  obtain ⟨da, ha, hpa⟩ := LogExt.trans (LogExt.trans l1 l2) l3
  obtain ⟨db, hb, hpb⟩ := l4
  obtain ⟨dc, hc, hpc⟩ := l5
  have hflog : σf.log = σ.log ++ (da ++ (db ++ dc)) := by
    rw [hσf, hc]
    dsimp only
    rw [hb, ha]
    simp [List.append_assoc]
  have hdrop : σf.log.drop σ.log.length = da ++ db ++ dc := by
    rw [hflog, List.drop_left, List.append_assoc]
  have hord := derivOrdering_of_segments da db dc
    (fun e he => preEvent_notDeriv (hpa e he))
    (fun e he => (hpb e he).2)
    (fun e he => (hpc e he).2)
  constructor
  · intro i j e1 e2 hi hL hj hW
    rw [hdrop] at hi hj
    exact hord i j e1 e2 hi hL hj hW
  · intro mask0 hm0 pi hpi hmask ti hti
    rw [hm0] at hm'
    injection hm' with hme
    subst hme
    rcases hdf with ⟨hg, htd, hdfe⟩ | ⟨g, hg, hdfe⟩
    · exact absurd hti (by rw [htd]; exact Nat.not_lt_zero ti)
    · subst hdfe
      refine ⟨boolMask ((List.range (dbEntryLen cfg parameters)).map (g ti))
        (maskExt cfg mask0), get?_map_range _ _ ti hti, ?_⟩
      have hxslen : ((List.range (dbEntryLen cfg parameters)).map
          (g ti)).length = dbEntryLen cfg parameters := by simp
      have hentry : (boolMask ((List.range (dbEntryLen cfg parameters)).map
            (g ti)) (maskExt cfg mask0)).get?
            (((maskExt cfg mask0).take pi).count true) = some (g ti pi) := by
        rw [boolMask_get_at _ _ pi (by rw [hxslen]; exact hpi) hmask]
        exact get?_map_range (g ti) _ pi hpi
      have hpimem : pi ∈ masked.map Prod.fst := by
        rw [hfst]
        exact List.mem_filter.mpr ⟨List.mem_range.mpr hpi, by simpa using hmask⟩
      obtain ⟨pr, hprmem, hpr1⟩ := List.mem_map.mp hpimem
      have hshapes : ∀ q ∈ masked, shapeOK q := by
        intro q hq
        rcases hhc with ⟨hacc1, hl1⟩ | ⟨hacc2, hl2⟩
        · obtain ⟨r0, hr0, _⟩ := (hgood q hq).1 hl1
          exact Or.inl ⟨r0, hr0⟩
        · obtain ⟨r0, r1, hr01, _, _⟩ := (hgood q hq).2 hl2
          exact Or.inr ⟨r0, r1, hr01⟩
      have hnd : List.Pairwise (fun a b => a.1 ≠ b.1) masked := by
        have hnd2 : (masked.map Prod.fst).Nodup := by
          rw [hfst]
          exact (List.nodup_range _).filter _
        exact List.pairwise_map.mp hnd2
      obtain ⟨g', hg', hval⟩ := assemblePhase_eval cfg oracle trajO fBase
        masked none σ4 hshapes hnd (fun q hq ti2 => rfl) pr hprmem
      have hgg : g' = g := by
        rw [hg'] at hg
        injection hg
      subst hgg
      have hrowval := hval ti
      constructor
      · intro hacc1
        have hl1 : hLen = 1 := by
          rcases hhc with ⟨_, h1⟩ | ⟨hacc2, _⟩
          · exact h1
          · rw [hacc1] at hacc2
            exact absurd hacc2 (by decide)
        obtain ⟨r0, hr0, hok⟩ := (hgood pr hprmem).1 hl1
        obtain ⟨mrd, hfb⟩ := dfBasePhase_val cfg oracle trajO parameters srd0
          σ2 srd fBase σ3 hacc1 hbp
        rw [hpr1] at hok
        refine ⟨r0, mrd, hok, ?_⟩
        rw [hentry]
        refine congrArg some ?_
        rw [← hpr1, hrowval, hr0]
        unfold dfEntryVal
        dsimp only
        rw [if_pos hacc1, trajValAt_lt _ _ _ _ hti, hfb,
          getD_map_range _ 0 _ ti hti]
      · intro hacc2
        have hl2 : hLen = 2 := by
          rcases hhc with ⟨hacc1, _⟩ | ⟨_, h2⟩
          · rw [hacc2] at hacc1
            exact absurd hacc1 (by decide)
          · exact h2
        obtain ⟨r0, r1, hr01, hok0, hok1⟩ := (hgood pr hprmem).2 hl2
        rw [hpr1] at hok0 hok1
        refine ⟨r0, r1, hok0, hok1, ?_⟩
        rw [hentry]
        refine congrArg some ?_
        rw [← hpr1, hrowval, hr01]
        unfold dfEntryVal
        dsimp only
        rw [if_neg (by rw [hacc2]; decide), trajValAt_lt _ _ _ _ hti,
          trajValAt_lt _ _ _ _ hti]

end Sim

namespace Sim

theorem c7_witness :
    dfRun witCfg witOracle witTrajO [2] ⟨1000, 0, "or"⟩ (some [true]) witDB
      = (.ok [[(1:ℚ)]],
        (dfRun witCfg witOracle witTrajO [2] ⟨1000, 0, "or"⟩ (some [true])
          witDB).2)
    ∧ ((∀ i j e1 e2,
       (((dfRun witCfg witOracle witTrajO [2] ⟨1000, 0, "or"⟩ (some [true])
           witDB).2).log.drop witDB.log.length).get? i = some e1 →
       isDerivLaunch e1 →
       (((dfRun witCfg witOracle witTrajO [2] ⟨1000, 0, "or"⟩ (some [true])
           witDB).2).log.drop witDB.log.length).get? j = some e2 →
       isDerivWait e2 → i < j)
    ∧ ∀ mask0, maskPrep [2] (some [true]) = .ok mask0 →
      ∀ pi, pi < dbEntryLen witCfg [2] →
        (maskExt witCfg mask0).getD pi false = true →
        ∀ ti, ti < witCfg.tracerDim →
          ∃ row, ([[(1:ℚ)]] : List (List ℚ)).get? ti = some row
          ∧ ((witCfg.derivAccuracyOrder = 1 →
               ∃ r0 mrd, PDRecOK witCfg [2] pi 0 r0
               ∧ row.get? (((maskExt witCfg mask0).take pi).count true)
                   = some ((witTrajO (some r0.runDir) (r0.pert.dropLast) ti
                       - witTrajO mrd (metosModelParameters witCfg [2]) ti)
                       / r0.h))
             ∧ (witCfg.derivAccuracyOrder = 2 →
               ∃ r0 r1, PDRecOK witCfg [2] pi 0 r0
               ∧ PDRecOK witCfg [2] pi 1 r1
               ∧ row.get? (((maskExt witCfg mask0).take pi).count true)
                   = some ((witTrajO (some r0.runDir) (r0.pert.dropLast) ti
                       - witTrajO (some r1.runDir) (r1.pert.dropLast) ti)
                       / (|r0.h| + |r1.h|))))) := by
  have hrun : dfRun witCfg witOracle witTrajO [2] ⟨1000, 0, "or"⟩
      (some [true]) witDB
      = (.ok [[(1:ℚ)]],
        (dfRun witCfg witOracle witTrajO [2] ⟨1000, 0, "or"⟩ (some [true])
          witDB).2) := by
    with_unfolding_all rfl
  exact ⟨hrun, c7_derivative_assembly witCfg witOracle witTrajO [2]
    ⟨1000, 0, "or"⟩ (some [true]) witDB [[(1:ℚ)]]
    ((dfRun witCfg witOracle witTrajO [2] ⟨1000, 0, "or"⟩ (some [true])
      witDB).2) hrun⟩

end Sim
